import Mathlib

/-!
# comparinator: crawl, capture, compare, aggregate

A shallow embedding of `main.go` and a verification of its pipeline: link
discovery, the capture loop, content-addressed artifact storage, the overall
similarity and the clean-up of the artifact paths.

Conventions of the embedding.

* A Go `string` is a `List Char` (`Str`), a `[]byte` a `List UInt8` (`Bytes`).
* `float64` is embedded as IEEE 754 binary64 (`F64`): NaN, the infinities,
  the two zeros and the finite values, each with its exact rational value.
  An operation computes the exact result and rounds it to the nearest
  binary64 value, ties to even.  `math.Round` rounds to the nearest integer,
  halves away from zero.
* `map[string]Link` is an association list with one entry per key (`LinkMap`).
  The order in which `range` visits a map is not fixed by Go, so every loop
  over the map takes the visiting order as an argument.
* Everything outside the program (the WebDriver session, the image diff, the
  PNG encoder, SHA-1, the success of a file write) is a field of `Env`; the
  state of the outside world is threaded through as `World`.
* The timestamps of `Result` and its title, which defaults to the formatted
  start time, are left out; no property below reads them.
-/

namespace Comparinator

/-- Go `string`. -/
abbrev Str := List Char

/-- Go `[]byte`. -/
abbrev Bytes := List UInt8

/-- Go `error` values are represented by their message. -/
abbrev Err := String

/-! ## Standard library: `strings`, `path/filepath`, `encoding/hex` -/

/-- Go `strings.Contains(s, substr)`: `substr` occurs somewhere in `s`. -/
def Contains : Str → Str → Bool
  | [], substr => substr.isEmpty
  | c :: cs, substr => substr.isPrefixOf (c :: cs) || Contains cs substr

/-- The scan of `strings.Replace` for a non-empty `old`: the first argument
counts the characters of the current match that are still to be skipped. -/
def replaceFrom (old new : Str) : Nat → Str → Str
  | _, [] => []
  | k + 1, _ :: cs => replaceFrom old new k cs
  | 0, c :: cs =>
    if old.isPrefixOf (c :: cs) then new ++ replaceFrom old new (old.length - 1) cs
    else c :: replaceFrom old new 0 cs

/-- Go `strings.ReplaceAll(s, old, new)`: every non-overlapping occurrence of
`old`, found scanning from the left, is replaced by `new`; an empty `old`
matches before every character and at the end. -/
def ReplaceAll (s old new : Str) : Str :=
  if old = new then s
  else if old = [] then new ++ s.flatMap (fun c => c :: new)
  else replaceFrom old new 0 s

/-- The elements of a path between its separators. -/
def splitSep : Str → List Str
  | [] => [[]]
  | c :: cs =>
    if c = '/' then [] :: splitSep cs
    else match splitSep cs with
      | [] => [[c]]
      | e :: es => (c :: e) :: es

/-- Go `strings.Join(elems, "/")`. -/
def joinSep : List Str → Str
  | [] => []
  | [e] => e
  | e :: e2 :: es => e ++ '/' :: joinSep (e2 :: es)

/-- One element of the loop of `filepath.Clean`; `stack` holds the elements
written so far, the last one first. -/
def cleanStep (rooted : Bool) (stack : List Str) (e : Str) : List Str :=
  if e = [] ∨ e = ['.'] then stack
  else if e = ['.', '.'] then
    match stack with
    | top :: rest =>
      if top ≠ ['.', '.'] then rest
      else if rooted then stack else e :: stack
    | [] => if rooted then [] else [e]
  else e :: stack

/-- Go `filepath.Clean` on a system whose separator is `/`. -/
def Clean (path : Str) : Str :=
  if path = [] then ['.']
  else
    let rooted := path.head? == some '/'
    let stack := (splitSep path).foldl (cleanStep rooted) []
    let out := (if rooted then ['/'] else []) ++ joinSep stack.reverse
    if out = [] then ['.'] else out

/-- Go `filepath.Join`: the elements from the first non-empty one on are
joined by the separator and the result is cleaned. -/
def Join : List Str → Str
  | [] => []
  | e :: es => if e = [] then Join es else Clean (joinSep (e :: es))

/-- The digits of `encoding/hex`. -/
def hextable : Str := "0123456789abcdef".toList

/-- Go `hex.EncodeToString`. -/
def EncodeToString : Bytes → Str
  | [] => []
  | v :: vs =>
    hextable.getD (v.toNat / 16) '0' :: hextable.getD (v.toNat % 16) '0' :: EncodeToString vs

/-! ## `float64` -/

/-- Go `float64`: an IEEE 754 binary64 value.  A finite value other than
negative zero is `num q` with `q` its exact value; `num 0` is positive zero. -/
inductive F64 where
  | nan
  | inf (neg : Bool)
  | negZero
  | num (q : ℚ)
  deriving DecidableEq

namespace F64

/-- The nearest integer, ties to the even one. -/
def roundEven (x : ℚ) : ℤ :=
  if x - ⌊x⌋ < 1 / 2 then ⌊x⌋
  else if 1 / 2 < x - ⌊x⌋ then ⌊x⌋ + 1
  else if ⌊x⌋ % 2 = 0 then ⌊x⌋ else ⌊x⌋ + 1

/-- The exponent of the unit in the last place of the binary64 values around
`q`: 52 below the exponent of `q`, and -1074 in the subnormal range. -/
def ulpExp (q : ℚ) : ℤ := max (Int.log 2 |q|) (-1022) - 52

/-- The multiple of the unit in the last place that is nearest to `a`, ties
to the even multiple; `a` is positive. -/
def roundMag (a : ℚ) : ℚ := roundEven (a / 2 ^ ulpExp a) * 2 ^ ulpExp a

/-- The binary64 value of an exact result `q`: the nearest multiple of the
unit in the last place, ties to even; an infinity when that is 2^1024 or more,
a zero with the sign of `q` when it is zero. -/
def round64 (q : ℚ) : F64 :=
  if q = 0 then num 0
  else if (2 : ℚ) ^ (1024 : ℤ) ≤ roundMag |q| then inf (decide (q < 0))
  else if roundMag |q| = 0 then (if q < 0 then negZero else num 0)
  else if q < 0 then num (-roundMag |q|)
  else num (roundMag |q|)

/-- The sign bit. -/
def signBit : F64 → Bool
  | nan => false
  | inf neg => neg
  | negZero => true
  | num q => decide (q < 0)

/-- A zero with the given sign bit. -/
def zero (neg : Bool) : F64 := if neg then negZero else num 0

/-- The exact value of a finite float; 0 for the others. -/
def toRat : F64 → ℚ
  | num q => q
  | _ => 0

/-- Go unary `-x`. -/
def neg : F64 → F64
  | nan => nan
  | inf s => inf (!s)
  | negZero => num 0
  | num q => if q = 0 then negZero else num (-q)

/-- Go `x + y`. -/
def add : F64 → F64 → F64
  | nan, _ => nan
  | _, nan => nan
  | inf s, inf t => if s = t then inf s else nan
  | inf s, _ => inf s
  | _, inf t => inf t
  | negZero, negZero => negZero
  | negZero, num q => num q
  | num p, negZero => num p
  | num p, num q => round64 (p + q)

/-- Go `x - y`. -/
def sub (x y : F64) : F64 := add x (neg y)

/-- Go `x * y`. -/
def mul : F64 → F64 → F64
  | nan, _ => nan
  | _, nan => nan
  | inf s, inf t => inf (xor s t)
  | inf s, y => if y.toRat = 0 then nan else inf (xor s y.signBit)
  | x, inf t => if x.toRat = 0 then nan else inf (xor x.signBit t)
  | x, y =>
    if x.toRat * y.toRat = 0 then zero (xor x.signBit y.signBit)
    else round64 (x.toRat * y.toRat)

/-- Go `x / y`. -/
def div : F64 → F64 → F64
  | nan, _ => nan
  | _, nan => nan
  | inf _, inf _ => nan
  | inf s, y => inf (xor s y.signBit)
  | x, inf t => zero (xor x.signBit t)
  | x, y =>
    if y.toRat = 0 then (if x.toRat = 0 then nan else inf (xor x.signBit y.signBit))
    else if x.toRat = 0 then zero (xor x.signBit y.signBit)
    else round64 (x.toRat / y.toRat)

/-- Go `float64(n)` for a non-negative `int`. -/
def ofNat (n : Nat) : F64 := round64 n

end F64

/-- The nearest integer, halves away from zero. -/
def roundHalfAway (x : ℚ) : ℤ := if 0 ≤ x then ⌊x + 1 / 2⌋ else -⌊-x + 1 / 2⌋

/-- Go `math.Round`: the nearest integer, halves away from zero; a zero result
has the sign of the argument, and NaN and the infinities are returned. -/
def Round : F64 → F64
  | F64.num q =>
    if roundHalfAway q = 0 then F64.zero (decide (q < 0)) else F64.num (roundHalfAway q)
  | x => x

/-! ## Data model -/

/-- Link describes the output of a particular page on both sites. -/
structure Link where
  Path : Str
  Captured : Bool
  AlphaScreenshotFile : Str
  BetaScreenshotFile : Str
  Similarity : F64
  DiffFile : Str
  AlphaBaseURL : Str
  BetaBaseURL : Str
  deriving DecidableEq

/-- Go `Link{}`, the zero value returned next to an error. -/
def Link.zero : Link :=
  { Path := [], Captured := false, AlphaScreenshotFile := [], BetaScreenshotFile := [],
    Similarity := F64.num 0, DiffFile := [], AlphaBaseURL := [], BetaBaseURL := [] }

/-- The command line flags. -/
structure Flags where
  captureWait : Int
  alphaBaseURL : Str
  betaBaseURL : Str
  testPath : Str
  seleniumURL : Str
  outputDir : Str
  runTitle : Str

/-- The flags with their default values, the two base URLs and the output
directory given. -/
def Flags.default (alpha beta out : Str) : Flags :=
  { captureWait := 1000, alphaBaseURL := alpha, betaBaseURL := beta, testPath := ['/'],
    seleniumURL := [], outputDir := out, runTitle := [] }

/-- Go `map[string]Link`. -/
abbrev LinkMap := List (Str × Link)

/-- The keys of the map. -/
def LinkMap.keys (m : LinkMap) : List Str := m.map Prod.fst

/-- Go `m[k]` with the comma-ok form. -/
def LinkMap.get? : LinkMap → Str → Option Link
  | [], _ => none
  | (k', v) :: m, k => if k' = k then some v else LinkMap.get? m k

/-- Go `m[k] = v`. -/
def LinkMap.set : LinkMap → Str → Link → LinkMap
  | [], k, v => [(k, v)]
  | (k', v') :: m, k, v => if k' = k then (k, v) :: m else (k', v') :: LinkMap.set m k v

/-- Result holds the result of the visual regression test (without its
timestamps and title). -/
structure Result where
  Links : LinkMap
  OverallSimilarity : F64
  TestPath : Str
  AlphaBaseURL : Str
  BetaBaseURL : Str
  CaptureWait : Int

/-! ## The outside world -/

/-- The files on disk: the content stored under each name. -/
abbrev FS := Str → Option Bytes

/-- The effect of a successful `ioutil.WriteFile(name, data, 0644)`. -/
def FS.write (fs : FS) (name : Str) (data : Bytes) : FS :=
  fun n => if n = name then some data else fs n

/-- The collaborators of the program.  `σ` is the state of the outside world
(browser session, network, disk health), `Img` the type of decoded images. -/
structure Env (σ : Type) (Img : Type) where
  /-- Go `selenium.NewRemote` and the checks of the output directories. -/
  NewRemote : σ → Option Err × σ
  /-- Go `wd.ResizeWindow("", 1920, 1280)`. -/
  ResizeWindow : σ → Option Err × σ
  /-- Go `wd.Get(url)`. -/
  Get : Str → σ → Option Err × σ
  /-- Go `wd.Screenshot()`, after the capture wait. -/
  Screenshot : σ → Except Err Bytes × σ
  /-- Go `wd.FindElements(ByCSSSelector, "a")` and `GetAttribute("href")` of each. -/
  FindHrefs : σ → Except Err (List Str) × σ
  /-- The error, when there is one, of `ioutil.WriteFile(name, data, 0644)`. -/
  WriteFile : Str → Bytes → σ → Option Err × σ
  /-- Go `diff.CompareFiles`: the diff image and the percentage of difference. -/
  CompareFiles : FS → Str → Str → Except Err (Img × F64)
  /-- Go `png.Encode` into a fresh buffer. -/
  Encode : Img → Except Err Bytes
  /-- Go `sha1.New()`, `Write`, `Sum(nil)`. -/
  Sum : Bytes → Bytes

/-- The state of the outside world together with the files on disk. -/
structure World (σ : Type) where
  wd : σ
  fs : FS

/-! ## The program -/

section Program

variable {σ Img : Type}

/-- The entry that `main` creates for a path that is not captured yet. -/
def freshLink (flags : Flags) (path : Str) : Link :=
  { Path := path, Captured := false, AlphaScreenshotFile := [], BetaScreenshotFile := [],
    Similarity := F64.num 0, DiffFile := [], AlphaBaseURL := flags.alphaBaseURL,
    BetaBaseURL := flags.betaBaseURL }

/-- Lines 108-118 of `main`: the map with the test path as its only entry. -/
def seedLinks (flags : Flags) : LinkMap :=
  LinkMap.set [] flags.testPath (freshLink flags flags.testPath)

/-- One iteration of the loop over the anchors, lines 129-157 of `main`. -/
def discoverStep (flags : Flags) (links : LinkMap) (href : Str) : LinkMap :=
  if Contains href flags.alphaBaseURL && !Contains href ['#'] then
    let newPath := ReplaceAll href flags.alphaBaseURL []
    match links.get? newPath with
    | some _ => links
    | none => links.set newPath (freshLink flags newPath)
  else links

/-- The loop over the anchors, lines 129-157 of `main`. -/
def discover (flags : Flags) (links : LinkMap) (hrefs : List Str) : LinkMap :=
  hrefs.foldl (discoverStep flags) links

/-- The storing of an artifact, lines 296-304 of `capturePage` and lines
269-276 of `captureAndCompare`: the file name is the hex SHA-1 of the bytes,
under the directory `dir` of the output directory. -/
def storeArtifact (env : Env σ Img) (flags : Flags) (dir : Str) (data : Bytes)
    (w : World σ) : Except Err Str × World σ :=
  let filename := EncodeToString (env.Sum data)
  let filename := Join [flags.outputDir, dir, filename ++ ".png".toList]
  match env.WriteFile filename data w.wd with
  | (some err, wd) => (.error err, { w with wd := wd })
  | (none, wd) => (.ok filename, { wd := wd, fs := w.fs.write filename data })

/-- Go `capturePage`. -/
def capturePage (env : Env σ Img) (flags : Flags) (url : Str) (w : World σ) :
    Except Err Str × World σ :=
  match env.Get url w.wd with
  | (some err, wd) => (.error err, { w with wd := wd })
  | (none, wd) =>
    match env.Screenshot wd with
    | (.error err, wd) => (.error err, { w with wd := wd })
    | (.ok screendata, wd) =>
      storeArtifact env flags "screenshots".toList screendata { w with wd := wd }

/-- Go `captureAndCompare`. -/
def captureAndCompare (env : Env σ Img) (flags : Flags) (path : Str) (link : Link)
    (w : World σ) : Except Err Link × World σ :=
  match env.ResizeWindow w.wd with
  | (some err, wd) => (.error err, { w with wd := wd })
  | (none, wd) =>
    match capturePage env flags (flags.alphaBaseURL ++ path) { w with wd := wd } with
    | (.error err, w) => (.error err, w)
    | (.ok filename, w) =>
      let link := { link with Captured := true, AlphaScreenshotFile := filename }
      match capturePage env flags (flags.betaBaseURL ++ path) w with
      | (.error err, w) => (.error err, w)
      | (.ok filename, w) =>
        let link := { link with BetaScreenshotFile := filename }
        match env.CompareFiles w.fs link.AlphaScreenshotFile link.BetaScreenshotFile with
        | .error err => (.error err, w)
        | .ok (diff, percent) =>
          let link := { link with Similarity := F64.sub (F64.num 100) percent }
          match env.Encode diff with
          | .error err => (.error err, w)
          | .ok diffBytes =>
            match storeArtifact env flags "diffs".toList diffBytes w with
            | (.error err, w) => (.error err, w)
            | (.ok filename, w) => (.ok { link with DiffFile := filename }, w)

/-- The capture loop, lines 161-169 of `main`, visiting the keys in the order
`order`.  The second component lists the paths whose failure was logged. -/
def captureLoop (env : Env σ Img) (flags : Flags) :
    List Str → LinkMap → World σ → LinkMap × List Str × World σ
  | [], links, w => (links, [], w)
  | path :: order, links, w =>
    match links.get? path with
    | none => captureLoop env flags order links w
    | some link =>
      match captureAndCompare env flags path link w with
      | (.error _, w) =>
        let r := captureLoop env flags order links w
        (r.1, path :: r.2.1, r.2.2)
      | (.ok newlink, w) => captureLoop env flags order (links.set path newlink) w

/-- The values that `range links` yields when it visits the keys in `order`. -/
def rangeValues (links : LinkMap) (order : List Str) : List Link :=
  order.filterMap links.get?

/-- Lines 177-183 of `main`: the overall similarity. -/
def overallSimilarity (links : LinkMap) (order : List Str) : F64 :=
  let average := (rangeValues links order).foldl
    (fun average link => F64.add average link.Similarity) (F64.num 0)
  F64.div (Round (F64.mul (F64.div average (F64.ofNat links.length)) (F64.num 100)))
    (F64.num 100)

/-- The body of the clean-up loop, lines 187-194 of `main`. -/
def cleanLink (flags : Flags) (link : Link) : Link :=
  let pathToRemove := flags.outputDir ++ ['/']
  { link with
    AlphaScreenshotFile := ReplaceAll link.AlphaScreenshotFile pathToRemove []
    BetaScreenshotFile := ReplaceAll link.BetaScreenshotFile pathToRemove []
    DiffFile := ReplaceAll link.DiffFile pathToRemove []
    Similarity := F64.div (Round (F64.mul link.Similarity (F64.num 100))) (F64.num 100) }

/-- The clean-up loop, lines 186-197 of `main`, visiting the keys in `order`. -/
def cleanLoop (flags : Flags) : List Str → LinkMap → LinkMap
  | [], links => links
  | path :: order, links =>
    match links.get? path with
    | none => cleanLoop flags order links
    | some link => cleanLoop flags order (links.set path (cleanLink flags link))

/-- The state of `main` when it reaches the computation of the overall
similarity (line 177): the map, the logged failures and the world. -/
def mainCaptured (env : Env σ Img) (flags : Flags) (captureOrder : List Str) (w : World σ) :
    Option (LinkMap × List Str × World σ) :=
  match env.NewRemote w.wd with
  | (some _, _) => none
  | (none, wd) =>
    let links := seedLinks flags
    let wd := (env.Get (flags.alphaBaseURL ++ flags.testPath) wd).2
    match env.FindHrefs wd with
    | (.error _, _) => none
    | (.ok hrefs, wd) =>
      let links := discover flags links hrefs
      some (captureLoop env flags captureOrder links { w with wd := wd })

/-- Go `main`, up to the writing of the reports; `none` is a panic.  The three
lists are the orders in which the three `range` loops visit the map. -/
def main (env : Env σ Img) (flags : Flags) (captureOrder meanOrder cleanOrder : List Str)
    (w : World σ) : Option (Result × World σ) :=
  match mainCaptured env flags captureOrder w with
  | none => none
  | some (links, _, w) =>
    let average := overallSimilarity links meanOrder
    let links := cleanLoop flags cleanOrder links
    some ({ Links := links, OverallSimilarity := average, TestPath := flags.testPath,
            AlphaBaseURL := flags.alphaBaseURL, BetaBaseURL := flags.betaBaseURL,
            CaptureWait := flags.captureWait }, w)

end Program

/-! ## A scripted outside world, for concrete runs -/

/-- The SHA-1 digest of the empty byte sequence. -/
def sha1Empty : Bytes :=
  [0xda, 0x39, 0xa3, 0xee, 0x5e, 0x6b, 0x4b, 0x0d, 0x32, 0x55,
   0xbf, 0xef, 0x95, 0x60, 0x18, 0x90, 0xaf, 0xd8, 0x07, 0x09]

/-- The bytes of the ASCII text `abc`. -/
def abcBytes : Bytes := [0x61, 0x62, 0x63]

/-- The SHA-1 digest of `abcBytes`. -/
def sha1Abc : Bytes :=
  [0xa9, 0x99, 0x3e, 0x36, 0x47, 0x06, 0x81, 0x6a, 0xba, 0x3e,
   0x25, 0x71, 0x78, 0x50, 0xc2, 0x6c, 0x9c, 0xd0, 0xd8, 0x9d]

/-- A world whose state is the URL that the browser has loaded.  The seed page
has the anchors `hrefs`; loading the URL `broken` fails and nothing else does;
the screenshot of the URL `changed` is `abcBytes` and every other screenshot,
like every encoded diff image, is the empty byte sequence; two files with the
same content differ by 0 percent and two others by `percent`. -/
def scriptedEnv (hrefs : List Str) (broken changed : Str) (percent : F64) : Env Str Unit where
  NewRemote := fun s => (none, s)
  ResizeWindow := fun s => (none, s)
  Get := fun url _ => (if url = broken then some "unreachable" else none, url)
  Screenshot := fun s => (.ok (if s = changed then abcBytes else []), s)
  FindHrefs := fun s => (.ok hrefs, s)
  WriteFile := fun _ _ s => (none, s)
  CompareFiles := fun fs a b =>
    match fs a, fs b with
    | some x, some y => .ok ((), if x = y then F64.num 0 else percent)
    | _, _ => .error "open"
  Encode := fun _ => .ok []
  Sum := fun data => if data = [] then sha1Empty else sha1Abc

/-- The world before the run: no page loaded, no files. -/
def emptyWorld : World Str := { wd := [], fs := fun _ => none }

/-! ## Concrete inputs and auxiliary predicates -/

/-- The flags of the concrete runs below: alpha site `http://a.com`, beta site
`http://b.com`, the default test path `/` and output directory `output`. -/
def exampleFlags : Flags :=
  Flags.default "http://a.com".toList "http://b.com".toList "output".toList

/-- The anchors of the seed page in the concrete runs below. -/
def exampleHrefs : List Str :=
  ["http://a.com/x".toList, "http://a.com/broken".toList, "http://c.com/".toList,
   "http://a.com/x#top".toList, "http://a.com/x".toList]

/-- The world of the concrete runs below: the beta site fails to load
`/broken` and renders `/x` differently, by `percent` percent. -/
def exampleEnv (percent : F64) : Env Str Unit :=
  scriptedEnv exampleHrefs "http://b.com/broken".toList "http://b.com/x".toList percent

/-- The paths that discovery registers in the concrete runs below. -/
def exampleOrder : List Str := ["/".toList, "/x".toList, "/broken".toList]

/-- An anchor URL on which a step of discovery does nothing: it is filtered
out, or its path is registered already. -/
def Settled (flags : Flags) (links : LinkMap) (href : Str) : Prop :=
  (Contains href flags.alphaBaseURL && !Contains href ['#']) = false ∨
    links.get? (ReplaceAll href flags.alphaBaseURL []) ≠ none

/-- The name under which `storeArtifact` stores the bytes `data` in the
directory `dir` of the output directory. -/
def artifactName {σ Img : Type} (env : Env σ Img) (flags : Flags) (dir : Str) (data : Bytes) :
    Str :=
  Join [flags.outputDir, dir, EncodeToString (env.Sum data) ++ ".png".toList]

/-- Every entry of the map is the fresh entry of its path, as discovery
creates it: not captured, similarity 0, no file references. -/
def AllFresh (flags : Flags) (links : LinkMap) : Prop :=
  ∀ e ∈ links, e.2 = freshLink flags e.1

/-- A path element that `filepath.Clean` copies as it is: not empty, not `.`,
not `..`, without a separator. -/
def Plain (e : Str) : Prop := e ≠ [] ∧ e ≠ ['.'] ∧ e ≠ ['.', '.'] ∧ '/' ∉ e

/-- A non-empty string whose last character is not the separator. -/
def EndsPlain (s : Str) : Prop := ∃ (x : Str) (c : Char), s = x ++ [c] ∧ c ≠ '/'

/-- The invariant of the records: a captured record has both screenshot
references. -/
def CapturedHasRefs (links : LinkMap) : Prop :=
  ∀ e ∈ links, e.2.Captured = true →
    e.2.AlphaScreenshotFile ≠ [] ∧ e.2.BetaScreenshotFile ≠ []

/-- The form in which the invariant is carried through the loops: the
screenshot references of a captured record end in a character that is not the
separator. -/
def CapturedEndPlain (links : LinkMap) : Prop :=
  ∀ e ∈ links, e.2.Captured = true →
    EndsPlain e.2.AlphaScreenshotFile ∧ EndsPlain e.2.BetaScreenshotFile

/-- The map of the concrete run when `main` reaches the computation of the
overall similarity. -/
def exampleCaptured (percent : F64) : LinkMap :=
  match mainCaptured (exampleEnv percent) exampleFlags exampleOrder emptyWorld with
  | some r => r.1
  | none => []

/-- Rounding to the nearest integer with halves rounded up, in the words of
the specification. -/
def roundHalfUp (x : ℚ) : ℚ := ((⌊x + 1 / 2⌋ : ℤ) : ℚ)

/-- The record that `captureAndCompare` returns for the page `/x` of the
concrete run, in which the diff reports `percent` percent. -/
def exampleNewlink (percent : F64) : Link :=
  match (captureAndCompare (exampleEnv percent) exampleFlags "/x".toList
    (freshLink exampleFlags "/x".toList) emptyWorld).1 with
  | .ok newlink => newlink
  | .error _ => Link.zero

/-- The flags of the concrete run with the output directory `dir`. -/
def exampleFlagsOut (dir : Str) : Flags := { exampleFlags with outputDir := dir }

/-- The file references of the records: path, captured, alpha screenshot,
beta screenshot, diff. -/
def fileRefs (links : LinkMap) : List (Str × Bool × Str × Str × Str) :=
  links.map fun e =>
    (e.1, e.2.Captured, e.2.AlphaScreenshotFile, e.2.BetaScreenshotFile, e.2.DiffFile)

/-- The arithmetic mean of the similarity of every record, each counted once,
in exact arithmetic: the mean in the words of the specification. -/
def exactMean (links : LinkMap) : ℚ :=
  (links.map fun e => e.2.Similarity.toRat).sum / links.length

/-- The invariant of the similarities: the similarity of a captured record
is the float64 difference of 100 and a percentage that `diff.CompareFiles` has
returned for the two screenshots of the record. -/
def CapturedSimilarity {σ Img : Type} (env : Env σ Img) (links : LinkMap) : Prop :=
  ∀ e ∈ links, e.2.Captured = true →
    ∃ (fs : FS) (diff : Img) (percent : F64),
      env.CompareFiles fs e.2.AlphaScreenshotFile e.2.BetaScreenshotFile
        = .ok (diff, percent) ∧
      e.2.Similarity = F64.sub (F64.num 100) percent

/-- The float64 nearest to 16.5433. -/
def dbl_16_5433 : ℚ := 4656524982217395 / 281474976710656

/-- The float64 nearest to 83.4567. -/
def dbl_83_4567 : ℚ := 5872743172212051 / 70368744177664

/-- The float64 nearest to 83.46. -/
def dbl_83_46 : ℚ := 5872975389067837 / 70368744177664

/-- The float64 nearest to 18.275. -/
def dbl_18_275 : ℚ := 2571977599693619 / 140737488355328

/-- The float64 nearest to 81.72. -/
def dbl_81_72 : ℚ := 2875266887099351 / 35184372088832

/-- The float64 nearest to 81.73. -/
def dbl_81_73 : ℚ := 5751237461640479 / 70368744177664

/-- The float64 nearest to 0.35. -/
def dbl_0_35 : ℚ := 3152519739159347 / 9007199254740992

/-- The float64 nearest to 0.355. -/
def dbl_0_355 : ℚ := 799388933858263 / 2251799813685248

/-- The float64 nearest to 99.65. -/
def dbl_99_65 : ℚ := 3506122678652109 / 35184372088832

/-- The float64 nearest to 99.645. -/
def dbl_99_645 : ℚ := 7011893513583329 / 70368744177664

/-- The float64 nearest to 99.77. -/
def dbl_99_77 : ℚ := 7020689606605537 / 70368744177664

/-- The float64 nearest to 99.76. -/
def dbl_99_76 : ℚ := 7019985919163761 / 70368744177664

/-- The bytes of the ASCII text `a`. -/
def aBytes : Bytes := [0x61]

/-- The SHA-1 digest of `aBytes`. -/
def sha1A : Bytes :=
  [0x86, 0xf7, 0xe4, 0x37, 0xfa, 0xa5, 0xa7, 0xfc, 0xe1, 0x5d,
   0x1d, 0xdc, 0xb9, 0xea, 0xea, 0xea, 0x37, 0x76, 0x67, 0xb8]

/-- A world in which nothing fails.  The seed page has an anchor to the pages
`/x` and `/y` of the alpha site; the beta site renders `/x` as `aBytes` and
`/y` as `abcBytes`, and every other screenshot, like every encoded diff image,
is the empty byte sequence; two files with the same content differ by 0
percent, and a file differs from another by `p₁` percent when it is `aBytes`
and by `p₂` percent when it is not. -/
def threePageEnv (p₁ p₂ : F64) : Env Str Unit where
  NewRemote := fun s => (none, s)
  ResizeWindow := fun s => (none, s)
  Get := fun url _ => (none, url)
  Screenshot := fun s =>
    (.ok (if s = "http://b.com/x".toList then aBytes
      else if s = "http://b.com/y".toList then abcBytes else []), s)
  FindHrefs := fun s => (.ok ["http://a.com/x".toList, "http://a.com/y".toList], s)
  WriteFile := fun _ _ s => (none, s)
  CompareFiles := fun fs a b =>
    match fs a, fs b with
    | some x, some y => .ok ((), if x = y then F64.num 0 else if y = aBytes then p₁ else p₂)
    | _, _ => .error "open"
  Encode := fun _ => .ok []
  Sum := fun data => if data = [] then sha1Empty else if data = aBytes then sha1A else sha1Abc

/-- The paths that discovery registers in the world `threePageEnv`. -/
def threePageOrder : List Str := ["/".toList, "/x".toList, "/y".toList]

/-- The map of the run in the world `threePageEnv` when `main` reaches the
computation of the overall similarity. -/
def threePageCaptured (p₁ p₂ : F64) : LinkMap :=
  match mainCaptured (threePageEnv p₁ p₂) exampleFlags threePageOrder emptyWorld with
  | some r => r.1
  | none => []

/-- The float64 nearest to 81.725. -/
def dbl_81_725 : ℚ := 2875442808959795 / 35184372088832

/-- The float64 nearest to 0.025. -/
def dbl_0_025 : ℚ := 3602879701896397 / 144115188075855872

/-- The float64 nearest to 99.975. -/
def dbl_99_975 : ℚ := 3517557599580979 / 35184372088832

/-- The float64 nearest to 99.98. -/
def dbl_99_98 : ℚ := 7035467042882847 / 70368744177664

/-- The float64 nearest to 99.97. -/
def dbl_99_97 : ℚ := 3517381677720535 / 35184372088832

/-! ## Lemmas on strings -/

theorem isPrefixOf_iff (p s : Str) : p.isPrefixOf s = true ↔ ∃ t, s = p ++ t := by
  induction p generalizing s with
  | nil => simp
  | cons a p ih =>
    cases s with
    | nil => simp [List.isPrefixOf]
    | cons b s =>
      simp only [List.isPrefixOf, Bool.and_eq_true, beq_iff_eq, ih, List.cons_append,
        List.cons.injEq]
      constructor
      · rintro ⟨rfl, t, rfl⟩
        exact ⟨t, rfl, rfl⟩
      · rintro ⟨t, rfl, rfl⟩
        exact ⟨rfl, t, rfl⟩

theorem Contains_iff (s sub : Str) : Contains s sub = true ↔ ∃ a b, s = a ++ sub ++ b := by
  induction s with
  | nil =>
    simp only [Contains, List.isEmpty_iff]
    constructor
    · rintro rfl
      exact ⟨[], [], rfl⟩
    · rintro ⟨a, b, h⟩
      have := congrArg List.length h
      simp at this
      exact List.eq_nil_of_length_eq_zero (by omega)
  | cons c cs ih =>
    simp only [Contains, Bool.or_eq_true, isPrefixOf_iff, ih]
    constructor
    · rintro (⟨t, h⟩ | ⟨a, b, h⟩)
      · exact ⟨[], t, by simpa using h⟩
      · exact ⟨c :: a, b, by simp [h]⟩
    · rintro ⟨a, b, h⟩
      cases a with
      | nil => exact Or.inl ⟨b, by simpa using h⟩
      | cons x a =>
        simp only [List.cons_append, List.cons.injEq] at h
        exact Or.inr ⟨a, b, by simpa using h.2⟩

theorem replaceFrom_skip (old new : Str) (xs rest : Str) :
    replaceFrom old new xs.length (xs ++ rest) = replaceFrom old new 0 rest := by
  induction xs with
  | nil => rfl
  | cons x xs ih => simpa [replaceFrom] using ih

theorem replaceFrom_zero_cons (old new : Str) (c : Char) (cs : Str) :
    replaceFrom old new 0 (c :: cs) =
      if old.isPrefixOf (c :: cs) then new ++ replaceFrom old new (old.length - 1) cs
      else c :: replaceFrom old new 0 cs := rfl

theorem replaceFrom_match (old new rest : Str) (h : old ≠ []) :
    replaceFrom old new 0 (old ++ rest) = new ++ replaceFrom old new 0 rest := by
  cases old with
  | nil => exact absurd rfl h
  | cons c cs =>
    have hp : (c :: cs).isPrefixOf (c :: (cs ++ rest)) = true :=
      (isPrefixOf_iff _ _).2 ⟨rest, rfl⟩
    rw [List.cons_append, replaceFrom_zero_cons, if_pos hp]
    have hl : (c :: cs).length - 1 = cs.length := by simp
    rw [hl, replaceFrom_skip]

theorem replaceFrom_step (old new : Str) (c : Char) (cs : Str)
    (h : old.isPrefixOf (c :: cs) = false) :
    replaceFrom old new 0 (c :: cs) = c :: replaceFrom old new 0 cs := by
  rw [replaceFrom_zero_cons, h]; simp

theorem replaceFrom_of_not_Contains (old new s : Str) (h : Contains s old = false) :
    replaceFrom old new 0 s = s := by
  induction s with
  | nil => rfl
  | cons c cs ih =>
    simp only [Contains, Bool.or_eq_false_iff] at h
    rw [replaceFrom_step _ _ _ _ h.1, ih h.2]

theorem ReplaceAll_of_ne_nil (s old : Str) (h : old ≠ []) :
    ReplaceAll s old [] = replaceFrom old [] 0 s := by
  simp [ReplaceAll, h]

/-- Removing a leading occurrence that is the only one leaves the remainder. -/
theorem ReplaceAll_append_left (base rest : Str)
    (h : base = [] ∨ Contains rest base = false) :
    ReplaceAll (base ++ rest) base [] = rest := by
  by_cases hb : base = []
  · subst hb
    simp [ReplaceAll]
  · have hc : Contains rest base = false := h.resolve_left hb
    rw [ReplaceAll_of_ne_nil _ _ hb, replaceFrom_match _ _ _ hb,
      replaceFrom_of_not_Contains _ _ _ hc]
    rfl

theorem get?_set_self (m : LinkMap) (k : Str) (v : Link) : (m.set k v).get? k = some v := by
  induction m with
  | nil => simp [LinkMap.set, LinkMap.get?]
  | cons e m ih =>
    obtain ⟨k', v'⟩ := e
    by_cases h : k' = k
    · simp [LinkMap.set, LinkMap.get?, h]
    · simp [LinkMap.set, LinkMap.get?, h, ih]

theorem get?_set_of_ne (m : LinkMap) (k k' : Str) (v : Link) (h : k' ≠ k) :
    (m.set k v).get? k' = m.get? k' := by
  induction m with
  | nil => simp [LinkMap.set, LinkMap.get?, Ne.symm h]
  | cons e m ih =>
    obtain ⟨k₀, v₀⟩ := e
    by_cases h₀ : k₀ = k
    · subst h₀
      simp [LinkMap.set, LinkMap.get?, Ne.symm h]
    · by_cases h₁ : k₀ = k'
      · subst h₁
        simp [LinkMap.set, LinkMap.get?, h₀]
      · simp [LinkMap.set, LinkMap.get?, h₀, h₁, ih]

theorem set_of_get?_none (m : LinkMap) (k : Str) (v : Link) (h : m.get? k = none) :
    m.set k v = m ++ [(k, v)] := by
  induction m with
  | nil => rfl
  | cons e m ih =>
    obtain ⟨k₀, v₀⟩ := e
    by_cases h₀ : k₀ = k
    · simp [LinkMap.get?, h₀] at h
    · simp only [LinkMap.get?, h₀, if_false] at h
      simp [LinkMap.set, h₀, ih h]

theorem keys_set_of_get?_some (m : LinkMap) (k : Str) (v v' : Link) (h : m.get? k = some v') :
    (m.set k v).keys = m.keys := by
  induction m with
  | nil => simp [LinkMap.get?] at h
  | cons e m ih =>
    obtain ⟨k₀, v₀⟩ := e
    by_cases h₀ : k₀ = k
    · simp [LinkMap.set, LinkMap.keys, h₀]
    · simp only [LinkMap.get?, h₀, if_false] at h
      have := ih h
      simp only [LinkMap.keys] at this
      simp [LinkMap.set, LinkMap.keys, h₀, this]

theorem get?_eq_none_iff (m : LinkMap) (k : Str) : m.get? k = none ↔ k ∉ m.keys := by
  induction m with
  | nil => simp [LinkMap.get?, LinkMap.keys]
  | cons e m ih =>
    obtain ⟨k₀, v₀⟩ := e
    simp only [LinkMap.keys, List.map_cons, List.mem_cons, not_or] at ih ⊢
    by_cases h₀ : k₀ = k
    · simp only [LinkMap.get?, h₀, if_true]
      constructor
      · intro h
        cases h
      · intro h
        exact absurd trivial h.1
    · simp only [LinkMap.get?, h₀, if_false, ih]
      constructor
      · intro h
        exact ⟨Ne.symm h₀, h⟩
      · intro h
        exact h.2

theorem mem_of_get? (m : LinkMap) (k : Str) (v : Link) (h : m.get? k = some v) :
    (k, v) ∈ m := by
  induction m with
  | nil => simp [LinkMap.get?] at h
  | cons e m ih =>
    obtain ⟨k₀, v₀⟩ := e
    by_cases h₀ : k₀ = k
    · simp only [LinkMap.get?, h₀, if_true, Option.some.injEq] at h
      simp [h₀, h]
    · simp only [LinkMap.get?, h₀, if_false] at h
      exact List.mem_cons_of_mem _ (ih h)

theorem mem_set (m : LinkMap) (k : Str) (v : Link) (e : Str × Link) (h : e ∈ m.set k v) :
    e ∈ m ∨ e = (k, v) := by
  induction m with
  | nil => simpa [LinkMap.set] using h
  | cons e₀ m ih =>
    obtain ⟨k₀, v₀⟩ := e₀
    by_cases h₀ : k₀ = k
    · simp only [LinkMap.set, h₀, if_true, List.mem_cons] at h
      rcases h with h | h
      · exact Or.inr h
      · exact Or.inl (List.mem_cons_of_mem _ h)
    · simp only [LinkMap.set, h₀, if_false, List.mem_cons] at h
      rcases h with h | h
      · exact Or.inl (h ▸ List.mem_cons_self _ _)
      · rcases ih h with h | h
        · exact Or.inl (List.mem_cons_of_mem _ h)
        · exact Or.inr h

theorem nodup_keys_set (m : LinkMap) (k : Str) (v : Link) (h : m.keys.Nodup) :
    (m.set k v).keys.Nodup := by
  cases hg : m.get? k with
  | none =>
    rw [set_of_get?_none _ _ _ hg]
    have hk := (get?_eq_none_iff m k).1 hg
    simp only [LinkMap.keys] at hk h ⊢
    rw [List.map_append, List.nodup_append]
    refine ⟨h, by simp, ?_⟩
    intro a ha hb
    simp at hb
    exact hk (hb ▸ ha)
  | some v' => rw [keys_set_of_get?_some _ _ _ _ hg]; exact h

theorem discoverStep_of_skip (flags : Flags) (links : LinkMap) (href : Str)
    (h : (Contains href flags.alphaBaseURL && !Contains href ['#']) = false) :
    discoverStep flags links href = links := by
  simp [discoverStep, h]

theorem discoverStep_of_known (flags : Flags) (links : LinkMap) (href : Str) (v : Link)
    (h : links.get? (ReplaceAll href flags.alphaBaseURL []) = some v) :
    discoverStep flags links href = links := by
  unfold discoverStep
  split
  · simp only [h]
  · rfl

theorem discoverStep_of_new (flags : Flags) (links : LinkMap) (href : Str)
    (hf : (Contains href flags.alphaBaseURL && !Contains href ['#']) = true)
    (h : links.get? (ReplaceAll href flags.alphaBaseURL []) = none) :
    discoverStep flags links href =
      links ++ [(ReplaceAll href flags.alphaBaseURL [],
        freshLink flags (ReplaceAll href flags.alphaBaseURL []))] := by
  unfold discoverStep
  rw [if_pos hf]
  simp only [h]
  exact set_of_get?_none _ _ _ h

/-- What one step of discovery does, by cases. -/
theorem discoverStep_cases (flags : Flags) (links : LinkMap) (href : Str) :
    (discoverStep flags links href = links ∧
      ((Contains href flags.alphaBaseURL && !Contains href ['#']) = false ∨
        links.get? (ReplaceAll href flags.alphaBaseURL []) ≠ none)) ∨
    ((Contains href flags.alphaBaseURL && !Contains href ['#']) = true ∧
      links.get? (ReplaceAll href flags.alphaBaseURL []) = none ∧
      discoverStep flags links href =
        links ++ [(ReplaceAll href flags.alphaBaseURL [],
          freshLink flags (ReplaceAll href flags.alphaBaseURL []))]) := by
  cases hf : (Contains href flags.alphaBaseURL && !Contains href ['#']) with
  | false => exact Or.inl ⟨discoverStep_of_skip _ _ _ hf, Or.inl rfl⟩
  | true =>
    cases hg : links.get? (ReplaceAll href flags.alphaBaseURL []) with
    | none => exact Or.inr ⟨rfl, rfl, discoverStep_of_new _ _ _ hf hg⟩
    | some v => exact Or.inl ⟨discoverStep_of_known _ _ _ v hg, Or.inr (by simp)⟩

/-- C3, the code at a failing input: with the base URL `http://a.com`,
discovery registers the cross-origin anchor `http://b.com/?r=http://a.com/x`
under the key `http://b.com/?r=/x`; the URL does not start with the base URL
and the base URL followed by the key is not the URL. -/
theorem discoverStep_registers_non_prefix :
    (discoverStep exampleFlags (seedLinks exampleFlags)
        "http://b.com/?r=http://a.com/x".toList).keys
      = ["/".toList, "http://b.com/?r=/x".toList] ∧
    exampleFlags.alphaBaseURL.isPrefixOf "http://b.com/?r=http://a.com/x".toList = false ∧
    exampleFlags.alphaBaseURL ++ "http://b.com/?r=/x".toList
      ≠ "http://b.com/?r=http://a.com/x".toList := by
  decide

/-- C7, the code at two failing inputs: with the non-empty base URL
`http://a.com`, discovery registers the anchor
`http://a.com/?u=http:/http://a.com/a.com`; both occurrences of the base URL
are removed, the inner one too, and what is left joins into the key
`/?u=http://a.com`, which contains the base URL.  It also registers the
cross-origin anchor `http://b.com/?r=http:/http://a.com/a.com`, which does not
start with the base URL, under the key `http://b.com/?r=http://a.com`, which
contains the base URL. -/
theorem discoverStep_path_contains_base :
    (discoverStep exampleFlags (seedLinks exampleFlags)
        "http://a.com/?u=http:/http://a.com/a.com".toList).keys
      = ["/".toList, "/?u=http://a.com".toList] ∧
    ReplaceAll "http://a.com/?u=http:/http://a.com/a.com".toList exampleFlags.alphaBaseURL []
      = "/?u=http://a.com".toList ∧
    exampleFlags.alphaBaseURL ≠ [] ∧
    Contains "/?u=http://a.com".toList exampleFlags.alphaBaseURL = true ∧
    exampleFlags.alphaBaseURL.isPrefixOf "http://b.com/?r=http:/http://a.com/a.com".toList
      = false ∧
    (discoverStep exampleFlags (seedLinks exampleFlags)
        "http://b.com/?r=http:/http://a.com/a.com".toList).keys
      = ["/".toList, "http://b.com/?r=http://a.com".toList] ∧
    Contains "http://b.com/?r=http://a.com".toList exampleFlags.alphaBaseURL = true := by
  decide

theorem discoverStep_of_settled (flags : Flags) (links : LinkMap) (href : Str)
    (h : Settled flags links href) : discoverStep flags links href = links := by
  rcases h with h | h
  · exact discoverStep_of_skip _ _ _ h
  · cases hg : links.get? (ReplaceAll href flags.alphaBaseURL []) with
    | none => exact absurd hg h
    | some v => exact discoverStep_of_known _ _ _ v hg

theorem get?_append_of_some (m m' : LinkMap) (k : Str) (v : Link) (h : m.get? k = some v) :
    (m ++ m').get? k = some v := by
  induction m with
  | nil => simp [LinkMap.get?] at h
  | cons e m ih =>
    obtain ⟨k₀, v₀⟩ := e
    by_cases h₀ : k₀ = k
    · simpa [LinkMap.get?, h₀] using h
    · simp only [LinkMap.get?, h₀, if_false] at h
      simpa [LinkMap.get?, h₀] using ih h

theorem get?_append_single (m : LinkMap) (k : Str) (v : Link) (h : m.get? k = none) :
    (m ++ [(k, v)]).get? k = some v := by
  rw [← set_of_get?_none _ _ _ h, get?_set_self]

/-- A step of discovery changes no entry that exists. -/
theorem discoverStep_get?_of_some (flags : Flags) (links : LinkMap) (href p : Str) (v : Link)
    (h : links.get? p = some v) : (discoverStep flags links href).get? p = some v := by
  rcases discoverStep_cases flags links href with ⟨hs, _⟩ | ⟨_, _, hs⟩
  · rw [hs]; exact h
  · rw [hs]; exact get?_append_of_some _ _ _ _ h

theorem settled_discoverStep_self (flags : Flags) (links : LinkMap) (href : Str) :
    Settled flags (discoverStep flags links href) href := by
  rcases discoverStep_cases flags links href with ⟨hs, h⟩ | ⟨_, hg, hs⟩
  · rw [hs]; exact h
  · right
    rw [hs, get?_append_single _ _ _ hg]
    simp

theorem settled_discoverStep (flags : Flags) (links : LinkMap) (href other : Str)
    (h : Settled flags links href) : Settled flags (discoverStep flags links other) href := by
  rcases h with h | h
  · exact Or.inl h
  · right
    cases hg : links.get? (ReplaceAll href flags.alphaBaseURL []) with
    | none => exact absurd hg h
    | some v => rw [discoverStep_get?_of_some _ _ _ _ _ hg]; simp

theorem discover_cons (flags : Flags) (links : LinkMap) (href : Str) (l : List Str) :
    discover flags links (href :: l) = discover flags (discoverStep flags links href) l := rfl

theorem discover_append (flags : Flags) (links : LinkMap) (l l' : List Str) :
    discover flags links (l ++ l') = discover flags (discover flags links l) l' := by
  simp [discover, List.foldl_append]

theorem settled_discover (flags : Flags) (links : LinkMap) (href : Str) (l : List Str)
    (h : Settled flags links href) : Settled flags (discover flags links l) href := by
  induction l generalizing links with
  | nil => exact h
  | cons a l ih => exact ih _ (settled_discoverStep _ _ _ a h)

theorem settled_discover_of_mem (flags : Flags) (links : LinkMap) (href : Str) (l : List Str)
    (h : href ∈ l) : Settled flags (discover flags links l) href := by
  induction l generalizing links with
  | nil => simp at h
  | cons a l ih =>
    rw [discover_cons]
    rcases List.mem_cons.1 h with rfl | h
    · exact settled_discover _ _ _ _ (settled_discoverStep_self _ _ _)
    · exact ih _ h

theorem discover_of_settled (flags : Flags) (links : LinkMap) (l : List Str)
    (h : ∀ href ∈ l, Settled flags links href) : discover flags links l = links := by
  induction l with
  | nil => rfl
  | cons a l ih =>
    rw [discover_cons, discoverStep_of_settled _ _ _ (h a (List.mem_cons_self _ _))]
    exact ih fun x hx => h x (List.mem_cons_of_mem _ hx)

theorem discover_get?_of_some (flags : Flags) (links : LinkMap) (l : List Str) (p : Str)
    (v : Link) (h : links.get? p = some v) : (discover flags links l).get? p = some v := by
  induction l generalizing links with
  | nil => exact h
  | cons a l ih => exact ih _ (discoverStep_get?_of_some _ _ _ _ _ h)

theorem nodup_keys_discoverStep (flags : Flags) (links : LinkMap) (href : Str)
    (h : links.keys.Nodup) : (discoverStep flags links href).keys.Nodup := by
  rcases discoverStep_cases flags links href with ⟨hs, _⟩ | ⟨_, hg, hs⟩
  · rw [hs]; exact h
  · rw [hs, ← set_of_get?_none _ _ _ hg]
    exact nodup_keys_set _ _ _ h

theorem nodup_keys_discover (flags : Flags) (links : LinkMap) (l : List Str)
    (h : links.keys.Nodup) : (discover flags links l).keys.Nodup := by
  induction l generalizing links with
  | nil => exact h
  | cons a l ih => exact ih _ (nodup_keys_discoverStep _ _ _ h)

theorem nodup_keys_seedLinks (flags : Flags) : (seedLinks flags).keys.Nodup := by
  simp [seedLinks, LinkMap.set, LinkMap.keys]

theorem seedLinks_get? (flags : Flags) :
    (seedLinks flags).get? flags.testPath = some (freshLink flags flags.testPath) := by
  simp [seedLinks, LinkMap.set, LinkMap.get?]

theorem length_filter_eq_one (l : List Str) (a : Str) (hnd : l.Nodup) (h : a ∈ l) :
    (l.filter fun k => k = a).length = 1 := by
  induction l with
  | nil => simp at h
  | cons b l ih =>
    rw [List.nodup_cons] at hnd
    by_cases hb : b = a
    · subst hb
      have : l.filter (fun k => decide (k = b)) = [] := by
        rw [List.filter_eq_nil_iff]
        intro x hx
        have : x ≠ b := fun e => hnd.1 (e ▸ hx)
        simpa using this
      simp [List.filter_cons, this]
    · have ha : a ∈ l := by
        rcases List.mem_cons.1 h with h | h
        · exact absurd h.symm hb
        · exact h
      simpa [List.filter_cons, hb] using ih hnd.2 ha

/-- C5: link discovery is idempotent.  Processing a URL a second time changes
nothing, and a step changes no entry that exists; so a list in which a URL is
repeated, or a list followed by itself, gives the map that the list gives
once.  A URL that passes the filter and is discovered twice from the seed map
has exactly one entry, and the seed entry stays as it was created, also when
a discovered URL has the seed path as its path. -/
theorem discover_idempotent (flags : Flags) (links : LinkMap) (l l₁ l₂ l₃ : List Str)
    (u : Str) :
    discoverStep flags (discoverStep flags links u) u = discoverStep flags links u ∧
    (∀ p v, links.get? p = some v → (discoverStep flags links u).get? p = some v) ∧
    discover flags links (l₁ ++ u :: l₂ ++ u :: l₃) = discover flags links (l₁ ++ u :: l₂ ++ l₃) ∧
    discover flags links (l ++ l) = discover flags links l ∧
    ((Contains u flags.alphaBaseURL && !Contains u ['#']) = true →
      ((discover flags (seedLinks flags) [u, u]).keys.filter
        fun k => k = ReplaceAll u flags.alphaBaseURL []).length = 1) ∧
    (discover flags (seedLinks flags) l).get? flags.testPath
      = some (freshLink flags flags.testPath) ∧
    (ReplaceAll u flags.alphaBaseURL [] = flags.testPath →
      discoverStep flags (discover flags (seedLinks flags) l) u
        = discover flags (seedLinks flags) l) := by
  refine ⟨discoverStep_of_settled _ _ _ (settled_discoverStep_self _ _ _),
    fun p v h => discoverStep_get?_of_some _ _ _ _ _ h, ?_, ?_, ?_, ?_, ?_⟩
  · have hs : Settled flags (discover flags links (l₁ ++ u :: l₂)) u :=
      settled_discover_of_mem _ _ _ _ (by simp)
    calc discover flags links (l₁ ++ u :: l₂ ++ u :: l₃)
        = discover flags (discover flags links (l₁ ++ u :: l₂)) (u :: l₃) :=
          discover_append _ _ _ _
      _ = discover flags (discover flags links (l₁ ++ u :: l₂)) l₃ := by
          rw [discover_cons, discoverStep_of_settled _ _ _ hs]
      _ = discover flags links (l₁ ++ u :: l₂ ++ l₃) := (discover_append _ _ _ _).symm
  · rw [discover_append]
    exact discover_of_settled _ _ _ fun x hx => settled_discover_of_mem _ _ _ _ hx
  · intro hf
    apply length_filter_eq_one
    · exact nodup_keys_discover _ _ _ (nodup_keys_seedLinks _)
    · have hs := settled_discover_of_mem flags (seedLinks flags) u [u, u] (by simp)
      rcases hs with hs | hs
      · rw [hf] at hs; cases hs
      · by_contra hk
        exact hs ((get?_eq_none_iff _ _).2 hk)
  · exact discover_get?_of_some _ _ _ _ _ (seedLinks_get? _)
  · intro hp
    apply discoverStep_of_settled
    right
    rw [hp, discover_get?_of_some _ _ _ _ _ (seedLinks_get? _)]
    simp

/-! ## Lemmas on capture -/

section CaptureLemmas

variable {σ Img : Type}

theorem storeArtifact_ok (env : Env σ Img) (flags : Flags) (dir : Str) (data : Bytes)
    (w : World σ) (ref : Str) (h : (storeArtifact env flags dir data w).1 = .ok ref) :
    ref = artifactName env flags dir data ∧
    (storeArtifact env flags dir data w).2.fs = w.fs.write ref data := by
  unfold storeArtifact at h ⊢
  simp only at h ⊢
  split at h
  · cases h
  · next hw =>
    simp only [Except.ok.injEq] at h
    subst h
    exact ⟨rfl, rfl⟩

theorem capturePage_ok (env : Env σ Img) (flags : Flags) (url : Str) (w : World σ) (ref : Str)
    (h : (capturePage env flags url w).1 = .ok ref) :
    ∃ data, ref = artifactName env flags "screenshots".toList data := by
  unfold capturePage at h
  split at h
  · cases h
  · split at h
    · cases h
    · next screendata wd _ => exact ⟨screendata, (storeArtifact_ok _ _ _ _ _ _ h).1⟩

theorem captureAndCompare_ok (env : Env σ Img) (flags : Flags) (path : Str) (link : Link)
    (w : World σ) (newlink : Link)
    (h : (captureAndCompare env flags path link w).1 = .ok newlink) :
    ∃ (a b d : Bytes) (fs : FS) (diff : Img) (percent : F64),
      env.CompareFiles fs (artifactName env flags "screenshots".toList a)
        (artifactName env flags "screenshots".toList b) = .ok (diff, percent) ∧
      env.Encode diff = .ok d ∧
      newlink = { link with
        Captured := true
        AlphaScreenshotFile := artifactName env flags "screenshots".toList a
        BetaScreenshotFile := artifactName env flags "screenshots".toList b
        Similarity := F64.sub (F64.num 100) percent
        DiffFile := artifactName env flags "diffs".toList d } := by
  unfold captureAndCompare at h
  split at h
  · cases h
  · split at h
    · cases h
    · next fa wa ha =>
      split at h
      · cases h
      · next fb wb hb =>
        simp only at h
        split at h
        · cases h
        · next diff percent hc =>
          split at h
          · cases h
          · next d hd =>
            split at h
            · cases h
            · next fd wd hs =>
              obtain ⟨a, rfl⟩ := capturePage_ok _ _ _ _ _ (by rw [ha])
              obtain ⟨b, rfl⟩ := capturePage_ok _ _ _ _ _ (by rw [hb])
              have hfd := (storeArtifact_ok _ _ _ _ _ _ (by rw [hs])).1
              subst hfd
              simp only [Except.ok.injEq] at h
              exact ⟨a, b, d, wb.fs, diff, percent, hc, hd, h.symm⟩
end CaptureLemmas

section LoopLemmas

variable {σ Img : Type}

/-- One iteration of the capture loop, by cases. -/
theorem captureLoop_cons (env : Env σ Img) (flags : Flags) (path : Str) (order : List Str)
    (links : LinkMap) (w : World σ) :
    (links.get? path = none ∧
      captureLoop env flags (path :: order) links w = captureLoop env flags order links w) ∨
    (∃ link e, links.get? path = some link ∧
      (captureAndCompare env flags path link w).1 = .error e ∧
      (captureLoop env flags (path :: order) links w).1
        = (captureLoop env flags order links (captureAndCompare env flags path link w).2).1 ∧
      (captureLoop env flags (path :: order) links w).2.1
        = path :: (captureLoop env flags order links
            (captureAndCompare env flags path link w).2).2.1) ∨
    (∃ link newlink, links.get? path = some link ∧
      (captureAndCompare env flags path link w).1 = .ok newlink ∧
      captureLoop env flags (path :: order) links w
        = captureLoop env flags order (links.set path newlink)
            (captureAndCompare env flags path link w).2) := by
  cases hg : links.get? path with
  | none =>
    left
    simp [captureLoop, hg]
  | some link =>
    right
    rcases hc : captureAndCompare env flags path link w with ⟨r, w'⟩
    cases r with
    | error e =>
      left
      exact ⟨link, e, rfl, by rw [hc], by simp [captureLoop, hg, hc], by simp [captureLoop, hg, hc]⟩
    | ok newlink =>
      right
      exact ⟨link, newlink, rfl, by rw [hc], by simp [captureLoop, hg, hc]⟩

/-- The iteration of the capture loop in which `captureAndCompare` fails: the
failure is logged and the remaining paths are visited with the map as it was. -/
theorem captureLoop_cons_error (env : Env σ Img) (flags : Flags) (path : Str)
    (order : List Str) (links : LinkMap) (w : World σ) (link : Link) (e : Err)
    (hg : links.get? path = some link)
    (he : (captureAndCompare env flags path link w).1 = .error e) :
    captureLoop env flags (path :: order) links w
      = ((captureLoop env flags order links (captureAndCompare env flags path link w).2).1,
         path :: (captureLoop env flags order links
           (captureAndCompare env flags path link w).2).2.1,
         (captureLoop env flags order links (captureAndCompare env flags path link w).2).2.2) := by
  rcases hc : captureAndCompare env flags path link w with ⟨r, w'⟩
  rw [hc] at he
  simp only at he
  subst he
  simp [captureLoop, hg, hc]

theorem captureLoop_keys (env : Env σ Img) (flags : Flags) (order : List Str)
    (links : LinkMap) (w : World σ) :
    (captureLoop env flags order links w).1.keys = links.keys := by
  induction order generalizing links w with
  | nil => rfl
  | cons path order ih =>
    rcases captureLoop_cons env flags path order links w with
      ⟨_, h⟩ | ⟨link, e, _, _, h, _⟩ | ⟨link, newlink, hg, _, h⟩
    · rw [h, ih]
    · rw [h, ih]
    · rw [h, ih, keys_set_of_get?_some _ _ _ _ hg]

theorem captureLoop_get?_of_not_mem (env : Env σ Img) (flags : Flags) (order : List Str)
    (links : LinkMap) (w : World σ) (p : Str) (hp : p ∉ order) :
    (captureLoop env flags order links w).1.get? p = links.get? p := by
  induction order generalizing links w with
  | nil => rfl
  | cons path order ih =>
    have hne : p ≠ path := fun e => hp (e ▸ List.mem_cons_self _ _)
    have hp' : p ∉ order := fun h => hp (List.mem_cons_of_mem _ h)
    rcases captureLoop_cons env flags path order links w with
      ⟨_, h⟩ | ⟨link, e, _, _, h, _⟩ | ⟨link, newlink, hg, _, h⟩
    · rw [h, ih _ _ hp']
    · rw [h, ih _ _ hp']
    · rw [h, ih _ _ hp', get?_set_of_ne _ _ _ _ hne]

theorem captureLoop_failed_mem (env : Env σ Img) (flags : Flags) (order : List Str)
    (links : LinkMap) (w : World σ) (p : Str)
    (hp : p ∈ (captureLoop env flags order links w).2.1) : p ∈ order := by
  induction order generalizing links w with
  | nil => simp [captureLoop] at hp
  | cons path order ih =>
    rcases captureLoop_cons env flags path order links w with
      ⟨_, h⟩ | ⟨link, e, _, _, _, h⟩ | ⟨link, newlink, hg, _, h⟩
    · rw [h] at hp
      exact List.mem_cons_of_mem _ (ih _ _ hp)
    · rw [h] at hp
      rcases List.mem_cons.1 hp with rfl | hp
      · exact List.mem_cons_self _ _
      · exact List.mem_cons_of_mem _ (ih _ _ hp)
    · rw [h] at hp
      exact List.mem_cons_of_mem _ (ih _ _ hp)

/-- The entry of a path whose failure was logged is the entry from before the
loop. -/
theorem captureLoop_failed_get? (env : Env σ Img) (flags : Flags) (order : List Str)
    (links : LinkMap) (w : World σ) (p : Str) (hnd : order.Nodup)
    (hp : p ∈ (captureLoop env flags order links w).2.1) :
    (captureLoop env flags order links w).1.get? p = links.get? p := by
  induction order generalizing links w with
  | nil => simp [captureLoop] at hp
  | cons path order ih =>
    rw [List.nodup_cons] at hnd
    rcases captureLoop_cons env flags path order links w with
      ⟨_, h⟩ | ⟨link, e, _, _, h₁, h⟩ | ⟨link, newlink, hg, _, h⟩
    · rw [h] at hp ⊢
      exact ih _ _ hnd.2 hp
    · rw [h] at hp
      rw [h₁]
      rcases List.mem_cons.1 hp with rfl | hp
      · exact captureLoop_get?_of_not_mem _ _ _ _ _ _ hnd.1
      · exact ih _ _ hnd.2 hp
    · rw [h] at hp ⊢
      have hmem := captureLoop_failed_mem _ _ _ _ _ _ hp
      have hne : p ≠ path := fun e => hnd.1 (e ▸ hmem)
      rw [ih _ _ hnd.2 hp, get?_set_of_ne _ _ _ _ hne]

theorem captureLoop_failed_known (env : Env σ Img) (flags : Flags) (order : List Str)
    (links : LinkMap) (w : World σ) (p : Str)
    (hp : p ∈ (captureLoop env flags order links w).2.1) : ∃ l, links.get? p = some l := by
  induction order generalizing links w with
  | nil => simp [captureLoop] at hp
  | cons path order ih =>
    rcases captureLoop_cons env flags path order links w with
      ⟨_, h⟩ | ⟨link, e, hg, _, _, h⟩ | ⟨link, newlink, hg, _, h⟩
    · rw [h] at hp
      exact ih _ _ hp
    · rw [h] at hp
      rcases List.mem_cons.1 hp with rfl | hp
      · exact ⟨link, hg⟩
      · exact ih _ _ hp
    · rw [h] at hp
      obtain ⟨l, hl⟩ := ih _ _ hp
      by_cases hpp : p = path
      · subst hpp
        exact ⟨link, hg⟩
      · exact ⟨l, (get?_set_of_ne _ _ _ _ hpp).symm.trans hl⟩

theorem captureAndCompare_ok_Captured (env : Env σ Img) (flags : Flags) (path : Str)
    (link : Link) (w : World σ) (newlink : Link)
    (h : (captureAndCompare env flags path link w).1 = .ok newlink) :
    newlink.Captured = true := by
  obtain ⟨a, b, d, fs, diff, percent, _, _, rfl⟩ := captureAndCompare_ok _ _ _ _ _ _ h
  rfl

/-- A captured entry stays captured through the loop. -/
theorem captureLoop_stays_Captured (env : Env σ Img) (flags : Flags) (order : List Str)
    (links : LinkMap) (w : World σ) (p : Str) (l : Link) (hl : links.get? p = some l)
    (hc : l.Captured = true) :
    ∃ l', (captureLoop env flags order links w).1.get? p = some l' ∧ l'.Captured = true := by
  induction order generalizing links w l with
  | nil => exact ⟨l, hl, hc⟩
  | cons path order ih =>
    rcases captureLoop_cons env flags path order links w with
      ⟨_, h⟩ | ⟨link, e, _, _, h, _⟩ | ⟨link, newlink, hg, hok, h⟩
    · rw [h]; exact ih _ _ _ hl hc
    · rw [h]; exact ih _ _ _ hl hc
    · rw [h]
      by_cases hp : p = path
      · subst hp
        exact ih _ _ _ (get?_set_self _ _ _) (captureAndCompare_ok_Captured _ _ _ _ _ _ hok)
      · exact ih _ _ _ ((get?_set_of_ne _ _ _ _ hp).trans hl) hc

/-- Every path that the loop visits is either logged as failed or captured. -/
theorem captureLoop_visits (env : Env σ Img) (flags : Flags) (order : List Str)
    (links : LinkMap) (w : World σ) (p : Str) (hp : p ∈ order) (hk : p ∈ links.keys) :
    p ∈ (captureLoop env flags order links w).2.1 ∨
    ∃ l, (captureLoop env flags order links w).1.get? p = some l ∧ l.Captured = true := by
  induction order generalizing links w with
  | nil => simp at hp
  | cons path order ih =>
    rcases captureLoop_cons env flags path order links w with
      ⟨hg, h⟩ | ⟨link, e, _, _, h₁, h⟩ | ⟨link, newlink, hg, hok, h⟩
    · have hne : p ≠ path := by
        rintro rfl
        exact (get?_eq_none_iff _ _).1 hg hk
      rw [h]
      exact ih _ _ ((List.mem_cons.1 hp).resolve_left hne) hk
    · rw [h, h₁]
      rcases List.mem_cons.1 hp with rfl | hp
      · exact Or.inl (List.mem_cons_self _ _)
      · rcases ih links (captureAndCompare env flags path link w).2 hp hk with h' | h'
        · exact Or.inl (List.mem_cons_of_mem _ h')
        · exact Or.inr h'
    · rw [h]
      by_cases hpp : p = path
      · subst hpp
        exact Or.inr (captureLoop_stays_Captured _ _ _ _ _ _ _ (get?_set_self _ _ _)
          (captureAndCompare_ok_Captured _ _ _ _ _ _ hok))
      · have hk' : p ∈ (links.set path newlink).keys := by
          rw [keys_set_of_get?_some _ _ _ _ hg]; exact hk
        exact ih _ _ ((List.mem_cons.1 hp).resolve_left hpp) hk'

end LoopLemmas

theorem allFresh_discover (flags : Flags) (hrefs : List Str) :
    AllFresh flags (discover flags (seedLinks flags) hrefs) := by
  have hstep : ∀ links href, AllFresh flags links →
      AllFresh flags (discoverStep flags links href) := by
    intro links href h
    rcases discoverStep_cases flags links href with ⟨hs, _⟩ | ⟨_, _, hs⟩
    · rw [hs]; exact h
    · rw [hs]
      intro e he
      rcases List.mem_append.1 he with he | he
      · exact h e he
      · simp only [List.mem_singleton] at he
        subst he
        rfl
  have hseed : AllFresh flags (seedLinks flags) := by
    intro e he
    simp only [seedLinks, LinkMap.set, List.mem_singleton] at he
    subst he
    rfl
  have : ∀ (l : List Str) links, AllFresh flags links → AllFresh flags (discover flags links l) := by
    intro l
    induction l with
    | nil => exact fun _ h => h
    | cons a l ih => exact fun links h => ih _ (hstep _ _ h)
  exact this _ _ hseed

section CaptureClaims

variable {σ Img : Type}

/-- C2: a path whose `captureAndCompare` failed (its failure is logged) has,
after the capture loop, the entry it had before the loop, which is the entry
that discovery created: not captured, similarity 0, the three file references
empty.  The loop keeps the set of registered paths, and it goes on after a
failure: every registered path that the loop visits is either logged as
failed or captured, and the iteration in which `captureAndCompare` returns an
error logs the path and hands the map on to the remaining paths as it was. -/
theorem captureLoop_failure_keeps_entry (env : Env σ Img) (flags : Flags) (hrefs order : List Str)
    (w : World σ) (path : Str) (hnd : order.Nodup)
    (hfail : path ∈
      (captureLoop env flags order (discover flags (seedLinks flags) hrefs) w).2.1) :
    (captureLoop env flags order (discover flags (seedLinks flags) hrefs) w).1.get? path
      = (discover flags (seedLinks flags) hrefs).get? path ∧
    (captureLoop env flags order (discover flags (seedLinks flags) hrefs) w).1.get? path
      = some (freshLink flags path) ∧
    (captureLoop env flags order (discover flags (seedLinks flags) hrefs) w).1.keys
      = (discover flags (seedLinks flags) hrefs).keys ∧
    (∀ p ∈ order, p ∈ (discover flags (seedLinks flags) hrefs).keys →
      p ∈ (captureLoop env flags order (discover flags (seedLinks flags) hrefs) w).2.1 ∨
      ∃ l, (captureLoop env flags order (discover flags (seedLinks flags) hrefs) w).1.get? p
        = some l ∧ l.Captured = true) ∧
    (∀ (links : LinkMap) (rest : List Str) (w₀ : World σ) (link : Link) (e : Err),
      links.get? path = some link →
      (captureAndCompare env flags path link w₀).1 = .error e →
      (captureLoop env flags (path :: rest) links w₀).1
        = (captureLoop env flags rest links (captureAndCompare env flags path link w₀).2).1 ∧
      (captureLoop env flags (path :: rest) links w₀).2.1
        = path :: (captureLoop env flags rest links
            (captureAndCompare env flags path link w₀).2).2.1) := by
  have h₁ := captureLoop_failed_get? env flags order _ w path hnd hfail
  refine ⟨h₁, ?_, captureLoop_keys _ _ _ _ _,
    fun p hp hk => captureLoop_visits _ _ _ _ _ _ hp hk,
    fun links rest w₀ link e hg he => by
      rw [captureLoop_cons_error env flags path rest links w₀ link e hg he]; exact ⟨rfl, rfl⟩⟩
  obtain ⟨l, hl⟩ := captureLoop_failed_known _ _ _ _ _ _ hfail
  have hfresh : l = freshLink flags path :=
    allFresh_discover flags hrefs _ (mem_of_get? _ _ _ hl)
  rw [h₁, hl, hfresh]

/-- Witness of `captureLoop_failure_keeps_entry`: in the concrete run the beta
site fails to load `/broken`; its failure is logged and its entry stays the
fresh entry. -/
theorem captureLoop_failure_keeps_entry_witness :
    exampleOrder.Nodup ∧
    "/broken".toList ∈ (captureLoop (exampleEnv (F64.num 20)) exampleFlags exampleOrder
      (discover exampleFlags (seedLinks exampleFlags) exampleHrefs) emptyWorld).2.1 ∧
    (captureLoop (exampleEnv (F64.num 20)) exampleFlags exampleOrder
      (discover exampleFlags (seedLinks exampleFlags) exampleHrefs) emptyWorld).1.get?
        "/broken".toList = some (freshLink exampleFlags "/broken".toList) :=
  ⟨by decide, by decide,
    (captureLoop_failure_keeps_entry (exampleEnv (F64.num 20)) exampleFlags exampleHrefs exampleOrder
      emptyWorld "/broken".toList (by decide) (by decide)).2.1⟩

end CaptureClaims

/-! ## Lemmas on file names -/

theorem splitSep_ne_nil (s : Str) : splitSep s ≠ [] := by
  cases s with
  | nil => simp [splitSep]
  | cons c cs =>
    unfold splitSep
    split
    · simp
    · split <;> simp

theorem splitSep_of_not_mem (e : Str) (h : '/' ∉ e) : splitSep e = [e] := by
  induction e with
  | nil => rfl
  | cons c cs ih =>
    have hc : c ≠ '/' := fun e => h (e ▸ List.mem_cons_self _ _)
    have hcs : '/' ∉ cs := fun hm => h (List.mem_cons_of_mem _ hm)
    simp [splitSep, hc, ih hcs]

theorem splitSep_append_sep (a b : Str) :
    splitSep (a ++ '/' :: b) = splitSep a ++ splitSep b := by
  induction a with
  | nil => simp [splitSep]
  | cons c a ih =>
    by_cases hc : c = '/'
    · simp [splitSep, hc, ih]
    · cases hs : splitSep a with
      | nil => exact absurd hs (splitSep_ne_nil a)
      | cons e es =>
        rw [hs] at ih
        simp [splitSep, hc, ih, hs]

theorem joinSep_append (l m : List Str) (hl : l ≠ []) (hm : m ≠ []) :
    joinSep (l ++ m) = joinSep l ++ '/' :: joinSep m := by
  induction l with
  | nil => exact absurd rfl hl
  | cons e l ih =>
    cases l with
    | nil =>
      cases m with
      | nil => exact absurd rfl hm
      | cons f m => simp [joinSep]
    | cons e' l =>
      have := ih (by simp)
      simp only [List.cons_append] at this ⊢
      simp [joinSep, this]

theorem cleanStep_of_Plain (rooted : Bool) (stack : List Str) (e : Str) (h : Plain e) :
    cleanStep rooted stack e = e :: stack := by
  simp [cleanStep, h.1, h.2.1, h.2.2.1]

theorem cleanOut_append_two (root : Str) (st : List Str) (a b : Str) :
    ∃ p, (if root ++ joinSep (st ++ [a, b]) = [] then ['.']
      else root ++ joinSep (st ++ [a, b])) = p ++ (a ++ '/' :: b) := by
  have hj : ∃ q, joinSep (st ++ [a, b]) = q ++ (a ++ '/' :: b) := by
    cases st with
    | nil => exact ⟨[], by simp [joinSep]⟩
    | cons e st =>
      refine ⟨joinSep (e :: st) ++ ['/'], ?_⟩
      rw [joinSep_append _ _ (by simp) (by simp)]
      simp [joinSep]
  obtain ⟨q, hq⟩ := hj
  rw [hq]
  have hout : root ++ (q ++ (a ++ '/' :: b)) ≠ [] := by simp
  rw [if_neg hout]
  exact ⟨root ++ q, by simp⟩

/-- The cleaned form of a path that ends in two plain elements ends in these
two elements. -/
theorem Clean_append_two (pre a b : Str) (ha : Plain a) (hb : Plain b) :
    ∃ p, Clean (pre ++ '/' :: (a ++ '/' :: b)) = p ++ (a ++ '/' :: b) := by
  have hne : pre ++ '/' :: (a ++ '/' :: b) ≠ [] := by simp
  have hsplit : splitSep (pre ++ '/' :: (a ++ '/' :: b)) = splitSep pre ++ [a, b] := by
    rw [splitSep_append_sep, splitSep_append_sep, splitSep_of_not_mem a ha.2.2.2,
      splitSep_of_not_mem b hb.2.2.2]
    rfl
  unfold Clean
  rw [if_neg hne]
  simp only [hsplit, List.foldl_append, List.foldl_cons, List.foldl_nil,
    cleanStep_of_Plain _ _ _ ha, cleanStep_of_Plain _ _ _ hb, List.reverse_cons,
    List.append_assoc, List.singleton_append]
  exact cleanOut_append_two _ _ a b

theorem Clean_two (a b : Str) (ha : Plain a) (hb : Plain b) :
    Clean (a ++ '/' :: b) = a ++ '/' :: b := by
  have hne : a ++ '/' :: b ≠ [] := by simp
  have hsplit : splitSep (a ++ '/' :: b) = [a, b] := by
    rw [splitSep_append_sep, splitSep_of_not_mem a ha.2.2.2, splitSep_of_not_mem b hb.2.2.2]
    rfl
  have hroot : ((a ++ '/' :: b).head? == some '/') = false := by
    cases a with
    | nil => exact absurd rfl ha.1
    | cons c a =>
      have hc : c ≠ '/' := fun e => ha.2.2.2 (e ▸ List.mem_cons_self _ _)
      simpa using hc
  unfold Clean
  rw [if_neg hne]
  simp only [hsplit, hroot, List.foldl_cons, List.foldl_nil, cleanStep_of_Plain _ _ _ ha,
    cleanStep_of_Plain _ _ _ hb]
  simp [joinSep]

/-- The joined path of an output directory, a plain directory and a plain
file name ends in `dir/name`. -/
theorem Join_three (d a b : Str) (ha : Plain a) (hb : Plain b) :
    ∃ p, Join [d, a, b] = p ++ (a ++ '/' :: b) := by
  by_cases hd : d = []
  · subst hd
    refine ⟨[], ?_⟩
    simp only [Join, if_true, if_neg ha.1, joinSep, List.nil_append]
    exact Clean_two a b ha hb
  · simp only [Join, if_neg hd, joinSep]
    exact Clean_append_two d a b ha hb

theorem hextable_getD_ne (n : Nat) : hextable.getD n '0' ≠ '/' := by
  rcases Nat.lt_or_ge n 16 with h | h
  · interval_cases n <;> decide
  · rw [List.getD_eq_default _ _ (by simpa [hextable] using h)]
    decide

theorem not_mem_EncodeToString (data : Bytes) : '/' ∉ EncodeToString data := by
  induction data with
  | nil => simp [EncodeToString]
  | cons v vs ih =>
    simp only [EncodeToString, List.mem_cons, not_or]
    exact ⟨(hextable_getD_ne _).symm, (hextable_getD_ne _).symm, ih⟩

theorem Plain_png (h : Str) (hh : '/' ∉ h) : Plain (h ++ ".png".toList) := by
  refine ⟨by simp, ?_, ?_, ?_⟩
  · intro e
    have := congrArg List.length e
    simp at this
  · intro e
    have := congrArg List.length e
    simp at this
  · simp only [List.mem_append, not_or]
    exact ⟨hh, by decide⟩

theorem Plain_screenshots : Plain "screenshots".toList := by
  refine ⟨by decide, by decide, by decide, by decide⟩

theorem Contains_eq_false_of_not_mem (name o : Str) (sep : Char) (h : sep ∉ name) :
    Contains name (o ++ [sep]) = false := by
  cases hc : Contains name (o ++ [sep]) with
  | false => rfl
  | true =>
    obtain ⟨a, b, e⟩ := (Contains_iff _ _).1 hc
    exact absurd (by rw [e]; simp) h

/-- An occurrence of a string that ends in `sep` cannot reach into a tail
without `sep`: the tail is copied. -/
theorem replaceFrom_append_tail (o : Str) (sep : Char) (new name : Str) (hname : sep ∉ name)
    (x : Str) :
    replaceFrom (o ++ [sep]) new 0 (x ++ name) = replaceFrom (o ++ [sep]) new 0 x ++ name := by
  have hold : o ++ [sep] ≠ [] := by simp
  suffices key : ∀ (n : Nat) (x : Str), x.length = n →
      replaceFrom (o ++ [sep]) new 0 (x ++ name)
        = replaceFrom (o ++ [sep]) new 0 x ++ name from key _ x rfl
  intro n
  induction n using Nat.strong_induction_on with
  | _ n ih =>
    intro x hn
    cases x with
    | nil =>
      simp only [List.nil_append]
      rw [replaceFrom_of_not_Contains _ _ _ (Contains_eq_false_of_not_mem _ _ _ hname)]
      rfl
    | cons c cs =>
      cases hp : (o ++ [sep]).isPrefixOf (c :: cs ++ name) with
      | true =>
        obtain ⟨t, ht⟩ := (isPrefixOf_iff _ _).1 hp
        have hx : ∃ x', c :: cs = (o ++ [sep]) ++ x' ∧ t = x' ++ name := by
          rcases List.append_eq_append_iff.1 ht with ⟨a', h₁, h₂⟩ | ⟨c', h₁, h₂⟩
          · -- `o ++ [sep] = (c :: cs) ++ a'` and `name = a' ++ t`
            cases List.eq_nil_or_concat a' with
            | inl ha =>
              subst ha
              exact ⟨[], by simpa using h₁.symm, by simpa using h₂.symm⟩
            | inr ha =>
              obtain ⟨a'', z, rfl⟩ := ha
              have : z = sep := by
                have h₃ : o ++ [sep] = (c :: cs ++ a'') ++ [z] := by
                  rw [h₁]; simp
                exact ((List.append_inj' h₃ rfl).2 |> List.singleton_inj.1).symm
              subst this
              exact absurd (by rw [h₂]; simp) hname
          · exact ⟨c', h₁, h₂⟩
        obtain ⟨x', hx', rfl⟩ := hx
        have hlen : x'.length < n := by
          have := congrArg List.length hx'
          simp at this
          simp at hn
          omega
        rw [ht, replaceFrom_match _ _ _ hold, ih _ hlen x' rfl, hx',
          replaceFrom_match _ _ _ hold, List.append_assoc]
      | false =>
        have hp' : (o ++ [sep]).isPrefixOf (c :: cs) = false := by
          cases hq : (o ++ [sep]).isPrefixOf (c :: cs) with
          | false => rfl
          | true =>
            obtain ⟨t, ht⟩ := (isPrefixOf_iff _ _).1 hq
            have : (o ++ [sep]).isPrefixOf (c :: cs ++ name) = true :=
              (isPrefixOf_iff _ _).2 ⟨t ++ name, by rw [ht]; simp⟩
            rw [hp] at this
            cases this
        have hlen : cs.length < n := by
          simp at hn
          omega
        have hp₂ : (o ++ [sep]).isPrefixOf (c :: (cs ++ name)) = false := hp
        rw [List.cons_append, replaceFrom_step _ _ _ _ hp₂, replaceFrom_step _ _ _ _ hp',
          ih _ hlen cs rfl, List.cons_append]

/-! ## The record invariant -/

theorem EndsPlain.ne_nil {s : Str} (h : EndsPlain s) : s ≠ [] := by
  obtain ⟨x, c, rfl, _⟩ := h
  simp

theorem EndsPlain_ReplaceAll (s d : Str) (h : EndsPlain s) :
    EndsPlain (ReplaceAll s (d ++ ['/']) []) := by
  obtain ⟨x, c, rfl, hc⟩ := h
  rw [ReplaceAll_of_ne_nil _ _ (by simp),
    replaceFrom_append_tail d '/' [] [c] (by simpa using Ne.symm hc) x]
  exact ⟨_, c, rfl, hc⟩

theorem CapturedEndPlain.hasRefs {links : LinkMap} (h : CapturedEndPlain links) :
    CapturedHasRefs links :=
  fun e he hc => ⟨(h e he hc).1.ne_nil, (h e he hc).2.ne_nil⟩

theorem CapturedEndPlain_set (links : LinkMap) (k : Str) (v : Link)
    (h : CapturedEndPlain links)
    (hv : v.Captured = true → EndsPlain v.AlphaScreenshotFile ∧ EndsPlain v.BetaScreenshotFile) :
    CapturedEndPlain (links.set k v) := by
  intro e he
  rcases mem_set _ _ _ _ he with he | rfl
  · exact h e he
  · exact hv

theorem CapturedEndPlain_of_AllFresh (flags : Flags) (links : LinkMap)
    (h : AllFresh flags links) : CapturedEndPlain links := by
  intro e he hc
  rw [h e he] at hc
  cases hc

theorem CapturedEndPlain_cleanLoop (flags : Flags) (order : List Str) (links : LinkMap)
    (h : CapturedEndPlain links) : CapturedEndPlain (cleanLoop flags order links) := by
  induction order generalizing links with
  | nil => exact h
  | cons path order ih =>
    unfold cleanLoop
    cases hg : links.get? path with
    | none => exact ih _ h
    | some link =>
      apply ih
      apply CapturedEndPlain_set _ _ _ h
      intro hc
      have := h _ (mem_of_get? _ _ _ hg) hc
      exact ⟨EndsPlain_ReplaceAll _ _ this.1, EndsPlain_ReplaceAll _ _ this.2⟩

section RefLemmas

variable {σ Img : Type}

theorem artifactName_eq (env : Env σ Img) (flags : Flags) (dir : Str) (data : Bytes)
    (hdir : Plain dir) :
    ∃ p, artifactName env flags dir data
      = p ++ (dir ++ '/' :: (EncodeToString (env.Sum data) ++ ".png".toList)) :=
  Join_three _ _ _ hdir (Plain_png _ (not_mem_EncodeToString _))

theorem EndsPlain_artifactName (env : Env σ Img) (flags : Flags) (dir : Str) (data : Bytes)
    (hdir : Plain dir) : EndsPlain (artifactName env flags dir data) := by
  obtain ⟨p, hp⟩ := artifactName_eq env flags dir data hdir
  refine ⟨p ++ (dir ++ '/' :: (EncodeToString (env.Sum data) ++ ".pn".toList)), 'g', ?_,
    by decide⟩
  rw [hp]
  simp

theorem CapturedEndPlain_captureLoop (env : Env σ Img) (flags : Flags) (order : List Str)
    (links : LinkMap) (w : World σ) (h : CapturedEndPlain links) :
    CapturedEndPlain (captureLoop env flags order links w).1 := by
  induction order generalizing links w with
  | nil => exact h
  | cons path order ih =>
    rcases captureLoop_cons env flags path order links w with
      ⟨_, h'⟩ | ⟨link, e, _, _, h', _⟩ | ⟨link, newlink, hg, hok, h'⟩
    · rw [h']; exact ih _ _ h
    · rw [h']; exact ih _ _ h
    · rw [h']
      apply ih
      apply CapturedEndPlain_set _ _ _ h
      intro _
      obtain ⟨a, b, d, fs, diff, percent, _, _, rfl⟩ := captureAndCompare_ok _ _ _ _ _ _ hok
      exact ⟨EndsPlain_artifactName _ _ _ _ Plain_screenshots,
        EndsPlain_artifactName _ _ _ _ Plain_screenshots⟩

theorem main_eq_some (env : Env σ Img) (flags : Flags) (captureOrder meanOrder cleanOrder : List Str)
    (w : World σ) (res : Result) (w' : World σ)
    (h : main env flags captureOrder meanOrder cleanOrder w = some (res, w')) :
    ∃ hrefs wd failed, mainCaptured env flags captureOrder w
        = some ((captureLoop env flags captureOrder
            (discover flags (seedLinks flags) hrefs) { w with wd := wd }).1, failed, w') ∧
      res.Links = cleanLoop flags cleanOrder (captureLoop env flags captureOrder
        (discover flags (seedLinks flags) hrefs) { w with wd := wd }).1 ∧
      res.OverallSimilarity = overallSimilarity (captureLoop env flags captureOrder
        (discover flags (seedLinks flags) hrefs) { w with wd := wd }).1 meanOrder := by
  unfold main at h
  split at h
  · cases h
  · next links failed w₁ hm =>
    simp only [Option.some.injEq, Prod.mk.injEq] at h
    obtain ⟨rfl, rfl⟩ := h
    unfold mainCaptured at hm ⊢
    split at hm
    · cases hm
    · next wd hnr =>
      simp only at hm
      split at hm
      · cases hm
      · next hrefs wd' hf =>
        simp only [Option.some.injEq] at hm
        refine ⟨hrefs, wd', failed, ?_, ?_, ?_⟩
        · simp only [hf, hm]
        · rw [hm]
        · rw [hm]

/-- C9: the record invariant.  In every record of the map, captured = true
implies that the alpha and the beta screenshot references are not empty:
after discovery, after every number `k` of iterations of the capture loop,
after every number `k` of iterations of the clean-up loop, and in the result of
`main`; for every world, all flags (every output directory name included) and
all visiting orders. -/
theorem captured_has_screenshots (env : Env σ Img) (flags : Flags)
    (hrefs captureOrder cleanOrder : List Str) (w : World σ) :
    CapturedHasRefs (discover flags (seedLinks flags) hrefs) ∧
    (∀ k, CapturedHasRefs (captureLoop env flags (captureOrder.take k)
      (discover flags (seedLinks flags) hrefs) w).1) ∧
    (∀ k, CapturedHasRefs (cleanLoop flags (cleanOrder.take k)
      (captureLoop env flags captureOrder (discover flags (seedLinks flags) hrefs) w).1)) ∧
    (∀ meanOrder res w', main env flags captureOrder meanOrder cleanOrder w = some (res, w') →
      CapturedHasRefs res.Links) := by
  have h₀ : ∀ hrefs, CapturedEndPlain (discover flags (seedLinks flags) hrefs) :=
    fun hrefs => CapturedEndPlain_of_AllFresh flags _ (allFresh_discover flags hrefs)
  refine ⟨(h₀ hrefs).hasRefs, fun k => (CapturedEndPlain_captureLoop _ _ _ _ _ (h₀ hrefs)).hasRefs,
    fun k => (CapturedEndPlain_cleanLoop _ _ _
      (CapturedEndPlain_captureLoop _ _ _ _ _ (h₀ hrefs))).hasRefs, ?_⟩
  intro meanOrder res w' hmain
  obtain ⟨hrefs', wd, failed, _, hl, _⟩ := main_eq_some _ _ _ _ _ _ _ _ hmain
  rw [hl]
  exact (CapturedEndPlain_cleanLoop _ _ _
    (CapturedEndPlain_captureLoop _ _ _ _ _ (h₀ hrefs'))).hasRefs

end RefLemmas

/-! ## Lemmas on `float64` -/

namespace F64

theorem roundEven_mem (x : ℚ) : roundEven x = ⌊x⌋ ∨ (roundEven x = ⌊x⌋ + 1 ∧ 1 / 2 ≤ x - ⌊x⌋) := by
  unfold roundEven
  split
  · exact Or.inl rfl
  · next h =>
    push_neg at h
    split
    · exact Or.inr ⟨rfl, h⟩
    · split
      · exact Or.inl rfl
      · exact Or.inr ⟨rfl, h⟩

theorem abs_roundEven_sub_le (x : ℚ) : |(roundEven x : ℚ) - x| ≤ 1 / 2 := by
  have h₁ := Int.floor_le x
  have h₂ := Int.lt_floor_add_one x
  unfold roundEven
  rw [abs_le]
  split
  · constructor <;> linarith
  · next h =>
    push_neg at h
    split
    · push_cast; constructor <;> linarith
    · next h' =>
      push_neg at h'
      split
      · constructor <;> linarith
      · push_cast; constructor <;> linarith

theorem roundEven_le (x : ℚ) (N : ℤ) (h : x ≤ N) : roundEven x ≤ N := by
  rcases roundEven_mem x with h₁ | ⟨h₁, h₂⟩
  · rw [h₁]
    have : (⌊x⌋ : ℚ) ≤ N := le_trans (Int.floor_le x) h
    exact_mod_cast this
  · rw [h₁]
    have hlt : (⌊x⌋ : ℚ) < N := by linarith [Int.floor_le x]
    have : ⌊x⌋ < N := by exact_mod_cast hlt
    omega

theorem le_roundEven (x : ℚ) (N : ℤ) (h : (N : ℚ) ≤ x) : N ≤ roundEven x := by
  have hf : N ≤ ⌊x⌋ := Int.le_floor.2 h
  rcases roundEven_mem x with h₁ | ⟨h₁, _⟩ <;> rw [h₁] <;> omega

theorem roundEven_intCast (n : ℤ) : roundEven (n : ℚ) = n :=
  le_antisymm (roundEven_le _ _ le_rfl) (le_roundEven _ _ le_rfl)

theorem roundEven_eq_of_abs_lt (x : ℚ) (n : ℤ) (h : |x - n| < 1 / 2) : roundEven x = n := by
  have h₀ := abs_roundEven_sub_le x
  rw [abs_lt] at h
  rw [abs_le] at h₀
  have h₁ : ((roundEven x : ℤ) : ℚ) - n < 1 := by linarith
  have h₂ : (-1 : ℚ) < ((roundEven x : ℤ) : ℚ) - n := by linarith
  have h₁' : roundEven x - n < 1 := by exact_mod_cast h₁
  have h₂' : -1 < roundEven x - n := by exact_mod_cast h₂
  omega

theorem two_zpow_pos (u : ℤ) : (0 : ℚ) < 2 ^ u := zpow_pos (by norm_num) u

theorem zpow_53 : (2 : ℚ) ^ (53 : ℤ) = ((2 ^ 53 : ℕ) : ℚ) := by norm_num

theorem natCast_lt_zpow_53 (B : ℕ) (h : B < 2 ^ 53) : (B : ℚ) < 2 ^ (53 : ℤ) := by
  rw [zpow_53]
  exact_mod_cast h

theorem zpow_log_le (a : ℚ) (ha : 0 < a) : (2 : ℚ) ^ Int.log 2 a ≤ a := by
  have := Int.zpow_log_le_self (b := 2) (by norm_num) ha
  simpa using this

theorem lt_zpow_log_succ (a : ℚ) : a < (2 : ℚ) ^ (Int.log 2 a + 1) := by
  have := Int.lt_zpow_succ_log_self (b := 2) (by norm_num) a
  simpa using this

theorem log_lt_of_lt_zpow (a : ℚ) (E : ℤ) (ha : 0 < a) (h : a < 2 ^ E) : Int.log 2 a < E := by
  have := (Int.lt_zpow_iff_log_lt (b := 2) (by norm_num) ha (x := E)).1 (by simpa using h)
  exact this

theorem le_log_of_zpow_le (a : ℚ) (e : ℤ) (ha : 0 < a) (h : 2 ^ e ≤ a) : e ≤ Int.log 2 a := by
  have := (Int.zpow_le_iff_le_log (b := 2) (by norm_num) ha (x := e)).1 (by simpa using h)
  exact this

theorem log_eq (a : ℚ) (e : ℤ) (h₁ : 2 ^ e ≤ a) (h₂ : a < 2 ^ (e + 1)) : Int.log 2 a = e := by
  have ha : 0 < a := lt_of_lt_of_le (two_zpow_pos e) h₁
  have := log_lt_of_lt_zpow a (e + 1) ha h₂
  have := le_log_of_zpow_le a e ha h₁
  omega

theorem ulpExp_of_pos (a : ℚ) (ha : 0 < a) :
    ulpExp a = max (Int.log 2 a) (-1022) - 52 := by
  rw [ulpExp, abs_of_pos ha]

theorem ulpExp_le (a : ℚ) (E : ℤ) (ha : 0 < a) (h : a < 2 ^ E) (hE : -1021 ≤ E) :
    ulpExp a ≤ E - 53 := by
  have := log_lt_of_lt_zpow a E ha h
  rw [ulpExp_of_pos a ha]
  omega

theorem lt_zpow_ulpExp (a : ℚ) (ha : 0 < a) : a < 2 ^ (ulpExp a + 53) := by
  have h := lt_zpow_log_succ a
  refine lt_of_lt_of_le h (zpow_le_zpow_right₀ (by norm_num) ?_)
  rw [ulpExp_of_pos a ha]
  omega

theorem roundMag_nonneg (a : ℚ) (ha : 0 < a) : 0 ≤ roundMag a := by
  unfold roundMag
  have h₁ : (0 : ℚ) ≤ a / 2 ^ ulpExp a := (div_pos ha (two_zpow_pos _)).le
  have h₂ : (0 : ℤ) ≤ roundEven (a / 2 ^ ulpExp a) := le_roundEven _ 0 (by simpa using h₁)
  have h₃ : (0 : ℚ) ≤ (roundEven (a / 2 ^ ulpExp a) : ℚ) := by exact_mod_cast h₂
  exact mul_nonneg h₃ (two_zpow_pos _).le

theorem abs_roundMag_sub_le (a : ℚ) : |roundMag a - a| ≤ 2 ^ (ulpExp a - 1) := by
  unfold roundMag
  have hu := two_zpow_pos (ulpExp a)
  have h := abs_roundEven_sub_le (a / 2 ^ ulpExp a)
  have e₁ : (roundEven (a / 2 ^ ulpExp a) : ℚ) * 2 ^ ulpExp a - a
      = ((roundEven (a / 2 ^ ulpExp a) : ℚ) - a / 2 ^ ulpExp a) * 2 ^ ulpExp a := by
    field_simp
  have e₂ : (2 : ℚ) ^ (ulpExp a - 1) = 1 / 2 * 2 ^ ulpExp a := by
    rw [zpow_sub_one₀ (by norm_num)]
    ring
  rw [e₁, e₂, abs_mul, abs_of_pos hu]
  exact mul_le_mul_of_nonneg_right h hu.le

theorem roundMag_le_zpow (a : ℚ) (ha : 0 < a) : roundMag a ≤ 2 ^ (ulpExp a + 53) := by
  unfold roundMag
  have hu := two_zpow_pos (ulpExp a)
  have h₁ : a / 2 ^ ulpExp a ≤ ((2 ^ 53 : ℤ) : ℚ) := by
    rw [div_le_iff₀ hu]
    have := lt_zpow_ulpExp a ha
    rw [zpow_add₀ (by norm_num)] at this
    push_cast
    have e : (2 : ℚ) ^ (53 : ℤ) = 2 ^ 53 := by norm_num
    rw [e] at this
    linarith
  have h₂ := roundEven_le _ _ h₁
  have h₃ : (roundEven (a / 2 ^ ulpExp a) : ℚ) ≤ 2 ^ 53 := by exact_mod_cast h₂
  rw [zpow_add₀ (by norm_num)]
  have e : (2 : ℚ) ^ (53 : ℤ) = 2 ^ 53 := by norm_num
  rw [e, mul_comm ((2 : ℚ) ^ ulpExp a)]
  exact mul_le_mul_of_nonneg_right h₃ hu.le

theorem roundMag_le_natCast (a : ℚ) (B : ℕ) (ha : 0 < a) (hB : a ≤ B) (hB53 : B < 2 ^ 53) :
    roundMag a ≤ B := by
  have hB1 : (1 : ℚ) ≤ B := by
    have : 0 < B := by
      rcases Nat.eq_zero_or_pos B with h | h
      · subst h
        simp at hB
        linarith
      · exact h
    exact_mod_cast this
  rcases lt_or_le (Int.log 2 a) 0 with hlog | hlog
  · have h := roundMag_le_zpow a ha
    have hu : ulpExp a + 53 ≤ 0 := by
      rw [ulpExp_of_pos a ha]
      omega
    have : (2 : ℚ) ^ (ulpExp a + 53) ≤ 2 ^ (0 : ℤ) := zpow_le_zpow_right₀ (by norm_num) hu
    simp at this
    linarith
  · have ha53 : a < 2 ^ (53 : ℤ) := lt_of_le_of_lt hB (natCast_lt_zpow_53 B hB53)
    have hlog53 := log_lt_of_lt_zpow a 53 ha ha53
    have hu : ulpExp a = Int.log 2 a - 52 := by
      rw [ulpExp_of_pos a ha]
      omega
    obtain ⟨k, hk⟩ : ∃ k : ℕ, (k : ℤ) = -ulpExp a := ⟨(-ulpExp a).toNat, by omega⟩
    have hpow : (2 : ℚ) ^ ulpExp a = ((2 : ℚ) ^ k)⁻¹ := by
      have : ulpExp a = -(k : ℤ) := by omega
      rw [this, zpow_neg, zpow_natCast]
    unfold roundMag
    have hk0 : (0 : ℚ) < 2 ^ k := by positivity
    have h₁ : a / 2 ^ ulpExp a ≤ ((B * 2 ^ k : ℤ) : ℚ) := by
      rw [hpow, div_inv_eq_mul]
      push_cast
      exact mul_le_mul_of_nonneg_right hB hk0.le
    have h₂ := roundEven_le _ _ h₁
    have h₃ : (roundEven (a / 2 ^ ulpExp a) : ℚ) ≤ B * 2 ^ k := by exact_mod_cast h₂
    rw [hpow] at h₃ ⊢
    calc (roundEven (a / ((2 : ℚ) ^ k)⁻¹) : ℚ) * ((2 : ℚ) ^ k)⁻¹
        ≤ (B * 2 ^ k) * ((2 : ℚ) ^ k)⁻¹ :=
          mul_le_mul_of_nonneg_right h₃ (inv_pos.2 hk0).le
      _ = B := by field_simp

/-- The rounding of a positive exact result that does not overflow. -/
theorem round64_of_pos (q : ℚ) (hq : 0 < q) (h : roundMag q < 2 ^ (1024 : ℤ)) :
    round64 q = num (roundMag q) := by
  unfold round64
  rw [if_neg hq.ne', abs_of_pos hq, if_neg (not_le.2 h), if_neg (not_lt.2 hq.le)]
  simp only [if_neg (not_lt.2 hq.le)]
  split
  · next h0 => rw [h0]
  · rfl

/-- The float of a positive exact result below `2 ^ E` and at most `B`. -/
theorem round64_spec (q : ℚ) (E : ℤ) (B : ℕ) (hq : 0 < q) (hE : q < 2 ^ E) (hE₁ : -1021 ≤ E)
    (hB : q ≤ B) (hB53 : B < 2 ^ 53) :
    ∃ r, round64 q = num r ∧ 0 ≤ r ∧ r ≤ B ∧ |r - q| ≤ 2 ^ (E - 54) := by
  have hu := ulpExp_le q E hq hE hE₁
  have hno : roundMag q < 2 ^ (1024 : ℤ) := by
    have h₁ := roundMag_le_natCast q B hq hB hB53
    have h₂ := natCast_lt_zpow_53 B hB53
    have h₃ : (2 : ℚ) ^ (53 : ℤ) ≤ 2 ^ (1024 : ℤ) :=
      zpow_le_zpow_right₀ (by norm_num) (by norm_num)
    linarith
  refine ⟨roundMag q, round64_of_pos q hq hno, roundMag_nonneg q hq,
    roundMag_le_natCast q B hq hB hB53, ?_⟩
  refine le_trans (abs_roundMag_sub_le q) (zpow_le_zpow_right₀ (by norm_num) ?_)
  omega


theorem roundMag_natCast (n : ℕ) (h₀ : 0 < n) (h : n < 2 ^ 53) : roundMag (n : ℚ) = n := by
  have ha : (0 : ℚ) < n := by exact_mod_cast h₀
  have h1 : (2 : ℚ) ^ (0 : ℤ) ≤ n := by
    have : (1 : ℚ) ≤ n := by exact_mod_cast h₀
    simpa using this
  have hlog0 := le_log_of_zpow_le (n : ℚ) 0 ha h1
  have hlog53 := log_lt_of_lt_zpow (n : ℚ) 53 ha (natCast_lt_zpow_53 n h)
  have hu : ulpExp (n : ℚ) = Int.log 2 (n : ℚ) - 52 := by
    rw [ulpExp_of_pos _ ha]
    omega
  obtain ⟨k, hk⟩ : ∃ k : ℕ, (k : ℤ) = -ulpExp (n : ℚ) := ⟨(-ulpExp (n : ℚ)).toNat, by omega⟩
  have hpow : (2 : ℚ) ^ ulpExp (n : ℚ) = ((2 : ℚ) ^ k)⁻¹ := by
    have : ulpExp (n : ℚ) = -(k : ℤ) := by omega
    rw [this, zpow_neg, zpow_natCast]
  have hk0 : (0 : ℚ) < 2 ^ k := by positivity
  unfold roundMag
  rw [hpow, div_inv_eq_mul]
  have e : (n : ℚ) * 2 ^ k = ((n * 2 ^ k : ℤ) : ℚ) := by push_cast; rfl
  rw [e, roundEven_intCast]
  push_cast
  field_simp

/-- A natural number below 2^53 is a binary64 value. -/
theorem round64_natCast (n : ℕ) (h : n < 2 ^ 53) : round64 (n : ℚ) = num n := by
  rcases Nat.eq_zero_or_pos n with h₀ | h₀
  · subst h₀
    simp [round64]
  · have ha : (0 : ℚ) < n := by exact_mod_cast h₀
    have hm := roundMag_natCast n h₀ h
    rw [round64_of_pos _ ha, hm]
    rw [hm]
    have h₂ := natCast_lt_zpow_53 n h
    have h₃ : (2 : ℚ) ^ (53 : ℤ) ≤ 2 ^ (1024 : ℤ) :=
      zpow_le_zpow_right₀ (by norm_num) (by norm_num)
    linarith

theorem ofNat_eq (n : ℕ) (h : n < 2 ^ 53) : ofNat n = num n := round64_natCast n h

theorem one_le_roundMag (a : ℚ) (ha : 1 ≤ a) : 1 ≤ roundMag a := by
  have hpos : 0 < a := by linarith
  have hlog0 := le_log_of_zpow_le a 0 hpos (by simpa using ha)
  have hu : ulpExp a = Int.log 2 a - 52 := by
    rw [ulpExp_of_pos _ hpos]
    omega
  have hup := two_zpow_pos (ulpExp a)
  have h52 : ((2 ^ 52 : ℤ) : ℚ) ≤ a / 2 ^ ulpExp a := by
    rw [le_div_iff₀ hup]
    have h := zpow_log_le a hpos
    have e : ((2 ^ 52 : ℤ) : ℚ) * 2 ^ ulpExp a = 2 ^ Int.log 2 a := by
      have : Int.log 2 a = 52 + ulpExp a := by omega
      rw [this, zpow_add₀ (by norm_num)]
      norm_num
    rw [e]
    exact h
  have h₂ := le_roundEven _ _ h52
  have h₃ : ((2 ^ 52 : ℤ) : ℚ) ≤ (roundEven (a / 2 ^ ulpExp a) : ℚ) := by exact_mod_cast h₂
  unfold roundMag
  have h₄ : (2 : ℚ) ^ Int.log 2 a ≤ (roundEven (a / 2 ^ ulpExp a) : ℚ) * 2 ^ ulpExp a := by
    have e : (2 : ℚ) ^ Int.log 2 a = ((2 ^ 52 : ℤ) : ℚ) * 2 ^ ulpExp a := by
      have : Int.log 2 a = 52 + ulpExp a := by omega
      rw [this, zpow_add₀ (by norm_num)]
      norm_num
    rw [e]
    exact mul_le_mul_of_nonneg_right h₃ hup.le
  have h₅ : (1 : ℚ) ≤ 2 ^ Int.log 2 a := by
    have := zpow_le_zpow_right₀ (a := (2 : ℚ)) (by norm_num) hlog0
    simpa using this
  linarith

/-- The float of a count that is not zero is not a zero. -/
theorem ofNat_ne_zero (n : ℕ) (h : 1 ≤ n) : ofNat n ≠ num 0 ∧ ofNat n ≠ negZero := by
  have ha : (1 : ℚ) ≤ n := by exact_mod_cast h
  have hpos : (0 : ℚ) < n := by linarith
  have hm := one_le_roundMag (n : ℚ) ha
  unfold ofNat round64
  rw [if_neg hpos.ne', abs_of_pos hpos]
  split
  · simp
  · rw [if_neg (by linarith), if_neg (not_lt.2 hpos.le)]
    constructor
    · intro h0
      simp only [num.injEq] at h0
      linarith
    · simp

/-- The float of a positive exact result, from the exponent `e` of its binade
and the multiple `n` of the unit in the last place that is nearest. -/
theorem round64_eq (q : ℚ) (e n : ℤ) (r : ℚ) (h₁ : 2 ^ e ≤ q) (h₂ : q < 2 ^ (e + 1))
    (he₁ : -1022 ≤ e) (he₂ : e ≤ 1022) (hn : roundEven (q / 2 ^ (e - 52)) = n)
    (hr : r = n * 2 ^ (e - 52)) :
    round64 q = num r := by
  have hq : 0 < q := lt_of_lt_of_le (two_zpow_pos e) h₁
  have hlog := log_eq q e h₁ h₂
  have hu : ulpExp q = e - 52 := by
    rw [ulpExp_of_pos _ hq, hlog]
    omega
  have hm : roundMag q = n * 2 ^ (e - 52) := by
    unfold roundMag
    rw [hu, hn]
  have hle := roundMag_le_zpow q hq
  rw [round64_of_pos q hq, hm, hr]
  have : (2 : ℚ) ^ (ulpExp q + 53) ≤ 2 ^ (1023 : ℤ) :=
    zpow_le_zpow_right₀ (by norm_num) (by omega)
  have h' : (2 : ℚ) ^ (1023 : ℤ) < 2 ^ (1024 : ℤ) :=
    zpow_lt_zpow_right₀ (by norm_num) (by norm_num)
  linarith

theorem round64_zero : round64 0 = num 0 := by simp [round64]

/-- The float of an exact result that is not negative, below `2 ^ E` and at
most `B`. -/
theorem round64_nonneg_spec (q : ℚ) (E : ℤ) (B : ℕ) (hq : 0 ≤ q) (hE : q < 2 ^ E)
    (hE₁ : -1021 ≤ E) (hB : q ≤ B) (hB53 : B < 2 ^ 53) :
    ∃ r, round64 q = num r ∧ 0 ≤ r ∧ r ≤ B ∧ |r - q| ≤ 2 ^ (E - 54) := by
  rcases hq.eq_or_lt with h0 | hpos
  · subst h0
    exact ⟨0, round64_zero, le_rfl, hB, by simpa using (two_zpow_pos (E - 54)).le⟩
  · exact round64_spec q E B hpos hE hE₁ hB hB53

theorem add_num (a b : ℚ) : add (num a) (num b) = round64 (a + b) := rfl

theorem sub_num (a b : ℚ) :
    sub (num a) (num b) = if b = 0 then num a else round64 (a - b) := by
  have hneg : neg (num b) = if b = 0 then negZero else num (-b) := rfl
  unfold sub
  rw [hneg]
  split
  · rfl
  · rw [add_num, sub_eq_add_neg]

theorem mul_num_of_nonneg (a b : ℚ) (ha : 0 ≤ a) (hb : 0 ≤ b) :
    mul (num a) (num b) = round64 (a * b) := by
  unfold mul
  simp only [toRat, signBit]
  split
  · next h =>
    rw [h, round64_zero]
    simp [zero, not_lt.2 ha, not_lt.2 hb]
  · rfl

theorem div_num_of_pos (a b : ℚ) (hb : 0 < b) :
    div (num a) (num b) = round64 (a / b) := by
  unfold div
  simp only [toRat, signBit]
  rw [if_neg hb.ne']
  split
  · next h =>
    rw [h, zero_div, round64_zero]
    simp [zero, not_lt.2 hb.le]
  · rfl

end F64

theorem roundHalfAway_of_nonneg (y : ℚ) (hy : 0 ≤ y) : roundHalfAway y = ⌊y + 1 / 2⌋ := by
  simp [roundHalfAway, hy]

theorem Round_num_of_nonneg (y : ℚ) (hy : 0 ≤ y) :
    Round (F64.num y) = F64.num ((⌊y + 1 / 2⌋ : ℤ) : ℚ) := by
  simp only [Round]
  rw [roundHalfAway_of_nonneg y hy]
  split
  · next h =>
    rw [h]
    simp [F64.zero, not_lt.2 hy]
  · rfl

namespace F64

theorem round64_ne_nan (q : ℚ) : round64 q ≠ nan := by
  unfold round64
  split_ifs <;> simp

/-- The float `100 - p` for a percentage within [0, 100]. -/
theorem sub_hundred (q : ℚ) (h₀ : 0 ≤ q) (h₁ : q ≤ 100) :
    ∃ s, sub (num 100) (num q) = num s ∧ 0 ≤ s ∧ s ≤ 100 ∧
      |s - (100 - q)| ≤ 2 ^ (-47 : ℤ) := by
  rw [sub_num]
  split_ifs with hq
  · refine ⟨100, rfl, by norm_num, le_refl _, ?_⟩
    rw [hq]
    norm_num
  · obtain ⟨r, hr, h0, hB, he⟩ := round64_nonneg_spec (100 - q) 7 100 (by linarith)
      (by norm_num; linarith) (by norm_num) (by push_cast; linarith) (by norm_num)
    exact ⟨r, hr, h0, by exact_mod_cast hB, by simpa using he⟩

end F64

/-- The integer nearest to `y`, halves upwards, is the one nearest to `x` when
`y` is within `δ` of `x` and `x` is at least `δ` away from every half. -/
theorem floor_half_eq (x y δ : ℚ) (hxy : |y - x| < δ)
    (hfar : ∀ j : ℤ, δ ≤ |x - (j + 1 / 2)|) : ⌊y + 1 / 2⌋ = ⌊x + 1 / 2⌋ := by
  have hy₁ := Int.floor_le (y + 1 / 2)
  have hy₂ := Int.lt_floor_add_one (y + 1 / 2)
  have hx₁ := Int.floor_le (x + 1 / 2)
  have hx₂ := Int.lt_floor_add_one (x + 1 / 2)
  rw [abs_lt] at hxy
  rcases lt_trichotomy ⌊y + 1 / 2⌋ ⌊x + 1 / 2⌋ with h | h | h
  · exfalso
    have h' : ((⌊y + 1 / 2⌋ : ℤ) : ℚ) + 1 ≤ (⌊x + 1 / 2⌋ : ℤ) := by exact_mod_cast h
    have := hfar (⌊x + 1 / 2⌋ - 1)
    rw [abs_of_nonneg (by push_cast; linarith)] at this
    push_cast at this
    linarith [hxy.1, hxy.2]
  · exact h
  · exfalso
    have h' : ((⌊x + 1 / 2⌋ : ℤ) : ℚ) + 1 ≤ (⌊y + 1 / 2⌋ : ℤ) := by exact_mod_cast h
    have := hfar ⌊x + 1 / 2⌋
    rw [abs_of_nonpos (by linarith)] at this
    linarith [hxy.1, hxy.2]

/-- The rounding to two decimals of lines 182 and 194 of `main`, for a value
within [0, 100]: the product with 100 is within 2 ^ -40 of the exact product,
`math.Round` gives the integer `k` nearest to it, and the quotient is the float
nearest to `k / 100`. -/
theorem round_two_decimals (m : ℚ) (h₀ : 0 ≤ m) (h₁ : m ≤ 100) :
    ∃ (y r : ℚ) (k : ℤ),
      F64.mul (F64.num m) (F64.num 100) = F64.num y ∧ |y - m * 100| ≤ 2 ^ (-40 : ℤ) ∧
      k = ⌊y + 1 / 2⌋ ∧ 0 ≤ k ∧ k ≤ 10000 ∧ |(k : ℚ) - y| ≤ 1 / 2 ∧
      F64.div (Round (F64.mul (F64.num m) (F64.num 100))) (F64.num 100)
        = F64.round64 ((k : ℚ) / 100) ∧
      F64.round64 ((k : ℚ) / 100) = F64.num r ∧ 0 ≤ r ∧ r ≤ 100 ∧
      |r - (k : ℚ) / 100| ≤ 2 ^ (-47 : ℤ) := by
  obtain ⟨y, hy, hy0, hyB, hye⟩ := F64.round64_nonneg_spec (m * 100) 14 10000 (by positivity)
    (by norm_num; linarith) (by norm_num) (by push_cast; linarith) (by norm_num)
  have hyB' : y ≤ 10000 := by exact_mod_cast hyB
  have hk₁ := Int.floor_le (y + 1 / 2)
  have hk₂ := Int.lt_floor_add_one (y + 1 / 2)
  have hk0 : (0 : ℤ) ≤ ⌊y + 1 / 2⌋ := Int.floor_nonneg.2 (by linarith)
  have hkB : ⌊y + 1 / 2⌋ ≤ 10000 := by
    have : ⌊y + 1 / 2⌋ < 10000 + 1 := by
      apply Int.floor_lt.2
      push_cast
      linarith
    omega
  have hk0' : (0 : ℚ) ≤ (⌊y + 1 / 2⌋ : ℤ) := by exact_mod_cast hk0
  have hkB' : ((⌊y + 1 / 2⌋ : ℤ) : ℚ) ≤ 10000 := by exact_mod_cast hkB
  obtain ⟨r, hr, hr0, hrB, hre⟩ := F64.round64_nonneg_spec (((⌊y + 1 / 2⌋ : ℤ) : ℚ) / 100) 7 100
    (by positivity) (by norm_num; linarith) (by norm_num) (by push_cast; linarith) (by norm_num)
  have hmul : F64.mul (F64.num m) (F64.num 100) = F64.num y := by
    rw [F64.mul_num_of_nonneg _ _ h₀ (by norm_num), hy]
  refine ⟨y, r, ⌊y + 1 / 2⌋, hmul, by simpa using hye, rfl, hk0, hkB, ?_, ?_, hr, hr0,
    by exact_mod_cast hrB, by simpa using hre⟩
  · rw [abs_le]
    constructor <;> linarith
  · rw [hmul, Round_num_of_nonneg y hy0, F64.div_num_of_pos _ _ (by norm_num)]

/-- The float sum of lines 178-181 of `main`: the values are within [0, 100],
the accumulator starts within [0, 100 * c], and at most 2 ^ 20 values are
added in all.  Every addition is off by at most 2 ^ -27. -/
theorem foldl_add_Similarity (l : List Link) (A : ℚ) (c : ℕ)
    (hl : ∀ x ∈ l, ∃ q : ℚ, x.Similarity = F64.num q ∧ 0 ≤ q ∧ q ≤ 100)
    (hA₀ : 0 ≤ A) (hA₁ : A ≤ 100 * c) (hc : c + l.length ≤ 2 ^ 20) :
    ∃ S : ℚ, l.foldl (fun average link => F64.add average link.Similarity) (F64.num A)
        = F64.num S ∧ 0 ≤ S ∧ S ≤ 100 * (c + l.length : ℕ) ∧
      |S - (A + (l.map fun link => link.Similarity.toRat).sum)| ≤ l.length * 2 ^ (-27 : ℤ) := by
  induction l generalizing A c with
  | nil =>
    refine ⟨A, rfl, hA₀, by simpa using hA₁, by simp⟩
  | cons x l ih =>
    obtain ⟨q, hx, hq₀, hq₁⟩ := hl x (List.mem_cons_self _ _)
    simp only [List.length_cons] at hc
    have hcq : ((c : ℚ)) ≤ 2 ^ 20 - 1 := by
      have : c + 1 ≤ 2 ^ 20 := by omega
      have : ((c + 1 : ℕ) : ℚ) ≤ ((2 ^ 20 : ℕ) : ℚ) := by exact_mod_cast this
      push_cast at this
      linarith
    obtain ⟨A', hA', hA'₀, hA'₁, hA'e⟩ := F64.round64_nonneg_spec (A + q) 27 (100 * (c + 1))
      (by linarith) (by norm_num; linarith) (by norm_num) (by push_cast; linarith)
      (by omega)
    obtain ⟨S, hS, hS₀, hS₁, hSe⟩ := ih A' (c + 1) (fun y hy => hl y (List.mem_cons_of_mem _ hy))
      hA'₀ (by exact_mod_cast hA'₁) (by omega)
    refine ⟨S, ?_, hS₀, ?_, ?_⟩
    · rw [List.foldl_cons, hx, F64.add_num, hA']
      exact hS
    · have : c + 1 + l.length = c + (x :: l).length := by simp [List.length_cons]; omega
      rw [← this]
      exact hS₁
    · have hxq : x.Similarity.toRat = q := by rw [hx]; rfl
      simp only [List.map_cons, List.sum_cons, List.length_cons, hxq]
      have hA'e' : |A' - (A + q)| ≤ 2 ^ (-27 : ℤ) := by simpa using hA'e
      rw [abs_le] at hSe hA'e' ⊢
      push_cast
      constructor <;> linarith [hSe.1, hSe.2, hA'e'.1, hA'e'.2]

/-! ## The overall similarity -/

theorem filterMap_get?_keys (m : LinkMap) (h : m.keys.Nodup) :
    (LinkMap.keys m).filterMap (LinkMap.get? m) = m.map Prod.snd := by
  induction m with
  | nil => rfl
  | cons e m ih =>
    obtain ⟨k, v⟩ := e
    simp only [LinkMap.keys, List.map_cons, List.nodup_cons] at h
    have hcongr : ((LinkMap.keys m).filterMap (LinkMap.get? ((k, v) :: m)))
        = (LinkMap.keys m).filterMap (LinkMap.get? m) := by
      apply List.filterMap_congr
      intro k' hk'
      have : k ≠ k' := fun e => h.1 (e ▸ hk')
      simp [LinkMap.get?, this]
    have hhead : LinkMap.get? ((k, v) :: m) k = some v := by simp [LinkMap.get?]
    show List.filterMap (LinkMap.get? ((k, v) :: m)) (k :: LinkMap.keys m)
      = v :: m.map Prod.snd
    rw [List.filterMap_cons, hhead]
    simp only
    rw [hcongr, ih h.2]

theorem rangeValues_perm (links : LinkMap) (order : List Str) (hnd : links.keys.Nodup)
    (hperm : order.Perm links.keys) : (rangeValues links order).Perm (links.map Prod.snd) := by
  unfold rangeValues
  rw [← filterMap_get?_keys links hnd]
  exact hperm.filterMap _

/-- C1, as amended: for every non-empty map of at most 2 ^ 20 records (one
entry per path) whose similarities are within [0, 100], and every order in
which `range` visits its keys, the values that are summed are the similarities
of all records, each counted once; the divisor is not zero; the float64 sum
`S`, accumulated in the order of the visit, is within 2 ^ -27 per record of the
exact sum; the overall similarity is the float64 nearest to `k / 100`, where
`k` is the integer nearest (halves upwards) to the float64 product `y` of the
float64 mean and 100; it lies within [0, 100] and within 1 / 200 + 2 ^ -26 of
the exact mean; and `k` is the exact mean times 100 rounded to the nearest
integer, as round(mean * 100), whenever the exact mean times 100 is at least
2 ^ -20 away from every half. -/
theorem overallSimilarity_float_mean (links : LinkMap) (order : List Str)
    (hne : links ≠ []) (hlen : links.length ≤ 2 ^ 20) (hnd : links.keys.Nodup)
    (hperm : order.Perm links.keys)
    (hsim : ∀ e ∈ links, ∃ q : ℚ, e.2.Similarity = F64.num q ∧ 0 ≤ q ∧ q ≤ 100) :
    (rangeValues links order).Perm (links.map Prod.snd) ∧
    F64.ofNat links.length = F64.num links.length ∧ (links.length : ℚ) ≠ 0 ∧
    ∃ (S y r : ℚ) (k : ℤ),
      (rangeValues links order).foldl
        (fun average link => F64.add average link.Similarity) (F64.num 0) = F64.num S ∧
      |S - (links.map fun e => e.2.Similarity.toRat).sum| ≤ links.length * 2 ^ (-27 : ℤ) ∧
      F64.mul (F64.div (F64.num S) (F64.ofNat links.length)) (F64.num 100) = F64.num y ∧
      |y - exactMean links * 100| < 2 ^ (-20 : ℤ) ∧
      k = ⌊y + 1 / 2⌋ ∧ 0 ≤ k ∧ k ≤ 10000 ∧
      overallSimilarity links order = F64.round64 ((k : ℚ) / 100) ∧
      overallSimilarity links order = F64.num r ∧ 0 ≤ r ∧ r ≤ 100 ∧
      |r - (k : ℚ) / 100| ≤ 2 ^ (-47 : ℤ) ∧
      |r - exactMean links| ≤ 1 / 200 + 2 ^ (-26 : ℤ) ∧
      ((∀ j : ℤ, 2 ^ (-20 : ℤ) ≤ |exactMean links * 100 - (j + 1 / 2)|) →
        (k : ℚ) = roundHalfUp (exactMean links * 100)) := by
  have hp := rangeValues_perm links order hnd hperm
  have hlen0 : links.length ≠ 0 := fun h => hne (List.eq_nil_of_length_eq_zero h)
  have hn0 : (0 : ℚ) < links.length := by
    have : 0 < links.length := Nat.pos_of_ne_zero hlen0
    exact_mod_cast this
  have hnB : (links.length : ℚ) ≤ 1048576 := by exact_mod_cast hlen
  have hof : F64.ofNat links.length = F64.num links.length := F64.ofNat_eq _ (by omega)
  have hrl : (rangeValues links order).length = links.length := by
    rw [hp.length_eq, List.length_map]
  have hrange : ∀ x ∈ rangeValues links order,
      ∃ q : ℚ, x.Similarity = F64.num q ∧ 0 ≤ q ∧ q ≤ 100 := by
    intro x hx
    obtain ⟨e, he, rfl⟩ := List.mem_map.1 (hp.mem_iff.1 hx)
    exact hsim e he
  have hsum : ((rangeValues links order).map fun link => link.Similarity.toRat).sum
      = (links.map fun e => e.2.Similarity.toRat).sum := by
    rw [(hp.map fun link => link.Similarity.toRat).sum_eq, List.map_map]
    rfl
  obtain ⟨S, hS, hS₀, hS₁, hSe⟩ := foldl_add_Similarity (rangeValues links order) 0 0 hrange
    (le_refl _) (by simp) (by rw [hrl]; omega)
  rw [hrl] at hSe hS₁
  rw [hsum, zero_add] at hSe
  simp only [zero_add] at hS₁
  -- the float mean
  have hm₀ : 0 ≤ S / links.length := div_nonneg hS₀ hn0.le
  have hm₁ : S / links.length ≤ 100 := by
    rw [div_le_iff₀ hn0]
    exact hS₁
  obtain ⟨m, hm, hm0, hmB, hme⟩ := F64.round64_nonneg_spec (S / links.length) 7 100 hm₀
    (by norm_num; linarith) (by norm_num) (by push_cast; linarith) (by norm_num)
  have hmB' : m ≤ 100 := by exact_mod_cast hmB
  have hdiv : F64.div (F64.num S) (F64.ofNat links.length) = F64.num m := by
    rw [hof, F64.div_num_of_pos _ _ hn0, hm]
  obtain ⟨y, r, k, hy, hye, hk, hk0, hkB, hky, hres, hr, hr0, hrB, hre⟩ :=
    round_two_decimals m hm0 hmB'
  have hSn : |S / links.length - exactMean links| ≤ 2 ^ (-27 : ℤ) := by
    unfold exactMean
    rw [← sub_div, abs_div, abs_of_pos hn0, div_le_iff₀ hn0]
    linarith
  have hme' : |m - S / links.length| ≤ 2 ^ (-47 : ℤ) := by simpa using hme
  have e20 : (2 : ℚ) ^ (-20 : ℤ) = 1 / 1048576 := by norm_num
  have e26 : (2 : ℚ) ^ (-26 : ℤ) = 1 / 67108864 := by norm_num
  have e27 : (2 : ℚ) ^ (-27 : ℤ) = 1 / 134217728 := by norm_num
  have e40 : (2 : ℚ) ^ (-40 : ℤ) = 1 / 1099511627776 := by norm_num
  have e47 : (2 : ℚ) ^ (-47 : ℤ) = 1 / 140737488355328 := by norm_num
  have hyM : |y - exactMean links * 100| < 2 ^ (-20 : ℤ) := by
    rw [e27] at hSn
    rw [e47] at hme'
    rw [e40] at hye
    rw [e20]
    rw [abs_le] at hSn hme' hye
    rw [abs_lt]
    constructor <;> linarith [hSn.1, hSn.2, hme'.1, hme'.2, hye.1, hye.2]
  have hov : overallSimilarity links order = F64.round64 ((k : ℚ) / 100) := by
    unfold overallSimilarity
    simp only [hS, hdiv]
    exact hres
  refine ⟨hp, hof, hn0.ne', S, y, r, k, hS, hSe, ?_, hyM, hk, hk0, hkB, hov, hov.trans hr,
    hr0, hrB, hre, ?_, ?_⟩
  · rw [hdiv, hy]
  · rw [e20] at hyM
    rw [e47] at hre
    rw [e26]
    rw [abs_lt] at hyM
    rw [abs_le] at hky hre ⊢
    constructor <;> linarith [hyM.1, hyM.2, hky.1, hky.2, hre.1, hre.2]
  · intro hfar
    rw [hk]
    unfold roundHalfUp
    exact_mod_cast congrArg (fun z : ℤ => (z : ℚ)) (floor_half_eq _ _ _ hyM hfar)

/-! ## Rounding, storage and the final result -/

theorem cleanLoop_keys (flags : Flags) (order : List Str) (links : LinkMap) :
    (cleanLoop flags order links).keys = links.keys := by
  induction order generalizing links with
  | nil => rfl
  | cons path order ih =>
    unfold cleanLoop
    cases hg : links.get? path with
    | none => exact ih _
    | some link =>
      show (cleanLoop flags order _).keys = _
      rw [ih, keys_set_of_get?_some _ _ _ _ hg]

/-- The clean-up loop, visiting every key at most once, replaces the record
of every key that it visits by the cleaned record. -/
theorem cleanLoop_get? (flags : Flags) (order : List Str) (links : LinkMap) (path : Str)
    (hnd : order.Nodup) :
    (cleanLoop flags order links).get? path
      = if path ∈ order then (links.get? path).map (cleanLink flags) else links.get? path := by
  induction order generalizing links with
  | nil => simp [cleanLoop]
  | cons p order ih =>
    obtain ⟨hp, hnd'⟩ := List.nodup_cons.1 hnd
    unfold cleanLoop
    cases hg : links.get? p with
    | none =>
      show (cleanLoop flags order links).get? path = _
      rw [ih _ hnd']
      by_cases h : path = p
      · subst h
        simp [hp, hg]
      · simp [h]
    | some link =>
      show (cleanLoop flags order _).get? path = _
      rw [ih _ hnd']
      by_cases h : path = p
      · subst h
        simp [hp, hg, get?_set_self]
      · simp [h, get?_set_of_ne _ _ _ _ h]

section SimLemmas

variable {σ Img : Type}

theorem CapturedSimilarity_of_AllFresh (env : Env σ Img) (flags : Flags) (links : LinkMap)
    (h : AllFresh flags links) : CapturedSimilarity env links := by
  intro e he hc
  rw [h e he] at hc
  cases hc

theorem CapturedSimilarity_captureLoop (env : Env σ Img) (flags : Flags) (order : List Str)
    (links : LinkMap) (w : World σ) (h : CapturedSimilarity env links) :
    CapturedSimilarity env (captureLoop env flags order links w).1 := by
  induction order generalizing links w with
  | nil => exact h
  | cons path order ih =>
    rcases captureLoop_cons env flags path order links w with
      ⟨_, h'⟩ | ⟨link, e, _, _, h', _⟩ | ⟨link, newlink, hg, hok, h'⟩
    · rw [h']; exact ih _ _ h
    · rw [h']; exact ih _ _ h
    · rw [h']
      apply ih
      intro e he hc
      rcases mem_set _ _ _ _ he with he | rfl
      · exact h e he hc
      · obtain ⟨a, b, d, fs, diff, percent, hcf, _, rfl⟩ := captureAndCompare_ok _ _ _ _ _ _ hok
        exact ⟨fs, diff, percent, hcf, rfl⟩

/-- C10, as amended: for every page that the final result of `main` reports as
captured, the comparison has succeeded with a percentage `p`, the record after
the capture loop has the float64 similarity `100 - p`, and the clean-up loop,
which visits every key once, replaces it by
`math.Round(similarity * 100) / 100`, computed in float64.  When `p` is a
number within [0, 100], the similarity of the record is within [0, 100] and
within 2 ^ -47 of the exact 100 - p; the reported similarity is the float64
nearest to `k / 100`, where `k` is the integer nearest (halves upwards) to
the float64 product `y` of the similarity and 100; it lies within [0, 100]
and within 1 / 200 + 2 ^ -44 of the exact 100 - p; and `k` is the exact
(100 - p) * 100 rounded to the nearest integer with halves rounded up
whenever (100 - p) * 100 is at least 2 ^ -39 away from every half. -/
theorem reported_similarity (env : Env σ Img) (flags : Flags)
    (captureOrder meanOrder cleanOrder : List Str) (w : World σ) (res : Result) (w' : World σ)
    (hmain : main env flags captureOrder meanOrder cleanOrder w = some (res, w'))
    (hclean : cleanOrder.Perm res.Links.keys)
    (path : Str) (l : Link) (hget : res.Links.get? path = some l) (hcap : l.Captured = true) :
    ∃ (links : LinkMap) (failed : List Str) (l₀ : Link) (fs : FS) (diff : Img) (p : F64),
      mainCaptured env flags captureOrder w = some (links, failed, w') ∧
      links.get? path = some l₀ ∧
      env.CompareFiles fs l₀.AlphaScreenshotFile l₀.BetaScreenshotFile = .ok (diff, p) ∧
      l₀.Similarity = F64.sub (F64.num 100) p ∧
      l = cleanLink flags l₀ ∧
      l.Similarity = F64.div (Round (F64.mul l₀.Similarity (F64.num 100))) (F64.num 100) ∧
      ∀ q : ℚ, p = F64.num q → 0 ≤ q → q ≤ 100 →
        ∃ (s y r : ℚ) (k : ℤ),
          l₀.Similarity = F64.num s ∧ 0 ≤ s ∧ s ≤ 100 ∧
          |s - (100 - q)| ≤ 2 ^ (-47 : ℤ) ∧
          F64.mul (F64.num s) (F64.num 100) = F64.num y ∧
          |y - (100 - q) * 100| < 2 ^ (-39 : ℤ) ∧
          k = ⌊y + 1 / 2⌋ ∧ 0 ≤ k ∧ k ≤ 10000 ∧
          l.Similarity = F64.round64 ((k : ℚ) / 100) ∧
          l.Similarity = F64.num r ∧ 0 ≤ r ∧ r ≤ 100 ∧
          |r - (k : ℚ) / 100| ≤ 2 ^ (-47 : ℤ) ∧
          |r - (100 - q)| ≤ 1 / 200 + 2 ^ (-44 : ℤ) ∧
          ((∀ j : ℤ, 2 ^ (-39 : ℤ) ≤ |(100 - q) * 100 - (j + 1 / 2)|) →
            (k : ℚ) = roundHalfUp ((100 - q) * 100)) := by
  obtain ⟨hrefs, wd, failed, hmc, hl, _⟩ := main_eq_some _ _ _ _ _ _ _ _ hmain
  have hinv : CapturedSimilarity env (captureLoop env flags captureOrder
      (discover flags (seedLinks flags) hrefs) { w with wd := wd }).1 :=
    CapturedSimilarity_captureLoop _ _ _ _ _
      (CapturedSimilarity_of_AllFresh env flags _ (allFresh_discover flags hrefs))
  have hkeys : res.Links.keys = (captureLoop env flags captureOrder
      (discover flags (seedLinks flags) hrefs) { w with wd := wd }).1.keys := by
    rw [hl, cleanLoop_keys]
  have hnd : res.Links.keys.Nodup := by
    rw [hkeys, captureLoop_keys]
    exact nodup_keys_discover _ _ _ (nodup_keys_seedLinks flags)
  have hmem : path ∈ cleanOrder := by
    apply hclean.mem_iff.2
    by_contra hk
    rw [(get?_eq_none_iff _ _).2 hk] at hget
    cases hget
  have hg := cleanLoop_get? flags cleanOrder (captureLoop env flags captureOrder
      (discover flags (seedLinks flags) hrefs) { w with wd := wd }).1 path
      (hclean.nodup_iff.2 hnd)
  rw [← hl, hget, if_pos hmem] at hg
  cases hg₀ : (captureLoop env flags captureOrder
      (discover flags (seedLinks flags) hrefs) { w with wd := wd }).1.get? path with
  | none =>
    rw [hg₀] at hg
    cases hg
  | some l₀ =>
    rw [hg₀] at hg
    have hll : l = cleanLink flags l₀ := Option.some.inj hg
    have hc₀ : l₀.Captured = true := by
      rw [hll] at hcap
      exact hcap
    obtain ⟨fs, diff, p, hcf, hs⟩ := hinv _ (mem_of_get? _ _ _ hg₀) hc₀
    have hsim : l.Similarity
        = F64.div (Round (F64.mul l₀.Similarity (F64.num 100))) (F64.num 100) := by
      rw [hll]
      rfl
    refine ⟨_, failed, l₀, fs, diff, p, hmc, hg₀, hcf, hs, hll, hsim, ?_⟩
    intro q hp h₀ h₁
    rw [hp] at hs
    obtain ⟨s, hsub, hs₀, hs₁, hse⟩ := F64.sub_hundred q h₀ h₁
    rw [hsub] at hs
    obtain ⟨y, r, k, hy, hye, hk, hk0, hkB, hky, hres, hr, hr0, hrB, hre⟩ :=
      round_two_decimals s hs₀ hs₁
    have e39 : (2 : ℚ) ^ (-39 : ℤ) = 1 / 549755813888 := by norm_num
    have e40 : (2 : ℚ) ^ (-40 : ℤ) = 1 / 1099511627776 := by norm_num
    have e44 : (2 : ℚ) ^ (-44 : ℤ) = 1 / 17592186044416 := by norm_num
    have e47 : (2 : ℚ) ^ (-47 : ℤ) = 1 / 140737488355328 := by norm_num
    have hyM : |y - (100 - q) * 100| < 2 ^ (-39 : ℤ) := by
      have hse' := hse
      rw [e47] at hse'
      rw [e40] at hye
      rw [e39]
      rw [abs_le] at hse' hye
      rw [abs_lt]
      constructor <;> linarith [hse'.1, hse'.2, hye.1, hye.2]
    have hov : l.Similarity = F64.round64 ((k : ℚ) / 100) := by
      rw [hsim, hs]
      exact hres
    refine ⟨s, y, r, k, hs, hs₀, hs₁, hse, hy, hyM, hk, hk0, hkB, hov, hov.trans hr, hr0, hrB,
      hre, ?_, ?_⟩
    · rw [e39] at hyM
      rw [e47] at hre
      rw [e44]
      rw [abs_lt] at hyM
      rw [abs_le] at hky hre ⊢
      constructor <;> linarith [hyM.1, hyM.2, hky.1, hky.2, hre.1, hre.2]
    · intro hfar
      rw [hk]
      unfold roundHalfUp
      exact_mod_cast congrArg (fun z : ℤ => (z : ℚ)) (floor_half_eq _ _ _ hyM hfar)

end SimLemmas

section Claims

variable {σ Img : Type}

/-- C6: whenever `main` reaches the computation of the overall similarity, the
map holds at least one record: the entry of the test path, registered before
discovery, is still there, since neither discovery nor the capture loop
removes a key.  The divisor `len(links)` of the mean is therefore not zero,
and neither is the float64 `float64(len(links))` by which the sum is divided:
it is not 0, not -0 and not NaN. -/
theorem links_nonempty_at_mean (env : Env σ Img) (flags : Flags)
    (captureOrder meanOrder cleanOrder : List Str) (w : World σ) (res : Result) (w' : World σ)
    (hmain : main env flags captureOrder meanOrder cleanOrder w = some (res, w')) :
    ∃ links failed, mainCaptured env flags captureOrder w = some (links, failed, w') ∧
      res.OverallSimilarity = overallSimilarity links meanOrder ∧
      links.get? flags.testPath ≠ none ∧ 1 ≤ links.length ∧ (links.length : ℚ) ≠ 0 ∧
      F64.ofNat links.length ≠ F64.num 0 ∧ F64.ofNat links.length ≠ F64.negZero ∧
      F64.ofNat links.length ≠ F64.nan := by
  obtain ⟨hrefs, wd, failed, hcap, _, hov⟩ := main_eq_some _ _ _ _ _ _ _ _ hmain
  refine ⟨_, failed, hcap, hov, ?_⟩
  have hk : flags.testPath ∈ (captureLoop env flags captureOrder
      (discover flags (seedLinks flags) hrefs) { w with wd := wd }).1.keys := by
    rw [captureLoop_keys]
    by_contra hk
    have := (get?_eq_none_iff _ _).2 hk
    rw [discover_get?_of_some _ _ _ _ _ (seedLinks_get? flags)] at this
    cases this
  have hlen : 1 ≤ (captureLoop env flags captureOrder
      (discover flags (seedLinks flags) hrefs) { w with wd := wd }).1.length := by
    have := List.length_pos_of_mem hk
    simpa [LinkMap.keys] using this
  refine ⟨fun h => (get?_eq_none_iff _ _).1 h hk, hlen, ?_, (F64.ofNat_ne_zero _ hlen).1,
    (F64.ofNat_ne_zero _ hlen).2, F64.round64_ne_nan _⟩
  have : (captureLoop env flags captureOrder
      (discover flags (seedLinks flags) hrefs) { w with wd := wd }).1.length ≠ 0 := by omega
  exact_mod_cast this

/-- C8: artifact storage is content-addressed and idempotent.  A store that
succeeds returns the joined path of the output directory, the category
directory and the hex SHA-1 of the bytes followed by `.png` (it ends in
`category/<hex>.png` for a plain category name such as `screenshots` or
`diffs`); storing the same bytes again, in whatever world, returns the same
reference; the second store leaves every file as the first one left it, and
the two stores together change no file but the one they name. -/
theorem storeArtifact_idempotent (env : Env σ Img) (flags : Flags) (dir : Str) (data : Bytes)
    (w : World σ) (ref₁ ref₂ : Str)
    (h₁ : (storeArtifact env flags dir data w).1 = .ok ref₁)
    (h₂ : (storeArtifact env flags dir data (storeArtifact env flags dir data w).2).1
      = .ok ref₂) :
    ref₁ = Join [flags.outputDir, dir, EncodeToString (env.Sum data) ++ ".png".toList] ∧
    ref₂ = ref₁ ∧
    (storeArtifact env flags dir data (storeArtifact env flags dir data w).2).2.fs
      = (storeArtifact env flags dir data w).2.fs ∧
    (storeArtifact env flags dir data w).2.fs ref₁ = some data ∧
    (∀ name, name ≠ ref₁ →
      (storeArtifact env flags dir data (storeArtifact env flags dir data w).2).2.fs name
        = w.fs name) ∧
    (∀ (w₃ : World σ) (ref₃ : Str),
      (storeArtifact env flags dir data w₃).1 = .ok ref₃ →
        ref₃ = ref₁ ∧
        (w₃.fs ref₁ = some data → (storeArtifact env flags dir data w₃).2.fs = w₃.fs)) ∧
    (Plain dir → ∃ p, ref₁ = p ++ (dir ++ '/' ::
      (EncodeToString (env.Sum data) ++ ".png".toList))) := by
  obtain ⟨e₁, f₁⟩ := storeArtifact_ok _ _ _ _ _ _ h₁
  obtain ⟨e₂, f₂⟩ := storeArtifact_ok _ _ _ _ _ _ h₂
  have e₂₁ : ref₂ = ref₁ := e₂.trans e₁.symm
  rw [e₂₁] at f₂
  refine ⟨e₁, e₂₁, ?_, ?_, ?_, ?_, ?_⟩
  · rw [f₂, f₁]
    funext n
    simp only [FS.write]
    split <;> rfl
  · rw [f₁]
    simp [FS.write]
  · intro name hn
    rw [f₂, f₁]
    simp [FS.write, hn]
  · intro w₃ ref₃ h₃
    obtain ⟨e₃, f₃⟩ := storeArtifact_ok _ _ _ _ _ _ h₃
    have e₃₁ : ref₃ = ref₁ := e₃.trans e₁.symm
    rw [e₃₁] at f₃
    refine ⟨e₃₁, fun hfile => ?_⟩
    rw [f₃]
    funext n
    simp only [FS.write]
    split
    · next hn => rw [hn, hfile]
    · rfl
  · intro hdir
    rw [e₁]
    exact artifactName_eq env flags dir data hdir

end Claims

/-- Witness of `links_nonempty_at_mean`: the concrete run reaches the
computation of the overall similarity, with a map that is not empty. -/
theorem links_nonempty_at_mean_witness :
    ∃ r, main (exampleEnv (F64.num 20)) exampleFlags exampleOrder exampleOrder exampleOrder emptyWorld
        = some r ∧
      ∃ links failed, mainCaptured (exampleEnv (F64.num 20)) exampleFlags exampleOrder emptyWorld
          = some (links, failed, r.2) ∧ 1 ≤ links.length := by
  cases h : main (exampleEnv (F64.num 20)) exampleFlags exampleOrder exampleOrder exampleOrder
      emptyWorld with
  | none =>
    have hs : (main (exampleEnv (F64.num 20)) exampleFlags exampleOrder exampleOrder exampleOrder
      emptyWorld).isSome = true := by rfl
    rw [h] at hs
    cases hs
  | some r =>
    obtain ⟨links, failed, hcap, _, _, hlen, _, _, _, _⟩ :=
      links_nonempty_at_mean (exampleEnv (F64.num 20)) exampleFlags exampleOrder exampleOrder
        exampleOrder emptyWorld r.1 r.2 h
    exact ⟨r, rfl, links, failed, hcap, hlen⟩

/-- Witness of `storeArtifact_idempotent`: the empty screenshot is stored twice
under `output/screenshots/da39a3ee5e6b4b0d3255bfef95601890afd80709.png`. -/
theorem storeArtifact_idempotent_witness :
    (storeArtifact (exampleEnv (F64.num 20)) exampleFlags "screenshots".toList [] emptyWorld).1
      = .ok "output/screenshots/da39a3ee5e6b4b0d3255bfef95601890afd80709.png".toList ∧
    (storeArtifact (exampleEnv (F64.num 20)) exampleFlags "screenshots".toList []
      (storeArtifact (exampleEnv (F64.num 20)) exampleFlags "screenshots".toList [] emptyWorld).2).1
      = .ok "output/screenshots/da39a3ee5e6b4b0d3255bfef95601890afd80709.png".toList ∧
    (storeArtifact (exampleEnv (F64.num 20)) exampleFlags "screenshots".toList []
      (storeArtifact (exampleEnv (F64.num 20)) exampleFlags "screenshots".toList [] emptyWorld).2).2.fs
      = (storeArtifact (exampleEnv (F64.num 20)) exampleFlags "screenshots".toList [] emptyWorld).2.fs :=
  ⟨rfl, rfl,
    (storeArtifact_idempotent (exampleEnv (F64.num 20)) exampleFlags "screenshots".toList []
      emptyWorld _ _ rfl rfl).2.2.1⟩

/-- C4, the code at two failing inputs.  With the output directory `out/` the
files are stored under `out/screenshots/` and `out/diffs/`; the string
`out//` does not occur in these paths, so the references of the final result
keep the prefix `out/`.  With the output directory `s` the files are stored
under `s/screenshots/` and `s/diffs/`, and the final result has lost every
`s/`, the one at the end of `screenshots/` and of `diffs/` included. -/
theorem clean_refs_not_relative :
    (mainCaptured (exampleEnv (F64.num 20)) (exampleFlagsOut "out/".toList) exampleOrder
        emptyWorld).map (fun r => fileRefs r.1)
      = some [("/".toList, true,
          "out/screenshots/da39a3ee5e6b4b0d3255bfef95601890afd80709.png".toList,
          "out/screenshots/da39a3ee5e6b4b0d3255bfef95601890afd80709.png".toList,
          "out/diffs/da39a3ee5e6b4b0d3255bfef95601890afd80709.png".toList),
        ("/x".toList, true,
          "out/screenshots/da39a3ee5e6b4b0d3255bfef95601890afd80709.png".toList,
          "out/screenshots/a9993e364706816aba3e25717850c26c9cd0d89d.png".toList,
          "out/diffs/da39a3ee5e6b4b0d3255bfef95601890afd80709.png".toList),
        ("/broken".toList, false, [], [], [])] ∧
    (main (exampleEnv (F64.num 20)) (exampleFlagsOut "out/".toList) exampleOrder exampleOrder exampleOrder
        emptyWorld).map (fun r => fileRefs r.1.Links)
      = some [("/".toList, true,
          "out/screenshots/da39a3ee5e6b4b0d3255bfef95601890afd80709.png".toList,
          "out/screenshots/da39a3ee5e6b4b0d3255bfef95601890afd80709.png".toList,
          "out/diffs/da39a3ee5e6b4b0d3255bfef95601890afd80709.png".toList),
        ("/x".toList, true,
          "out/screenshots/da39a3ee5e6b4b0d3255bfef95601890afd80709.png".toList,
          "out/screenshots/a9993e364706816aba3e25717850c26c9cd0d89d.png".toList,
          "out/diffs/da39a3ee5e6b4b0d3255bfef95601890afd80709.png".toList),
        ("/broken".toList, false, [], [], [])] ∧
    (mainCaptured (exampleEnv (F64.num 20)) (exampleFlagsOut "s".toList) exampleOrder
        emptyWorld).map (fun r => fileRefs r.1)
      = some [("/".toList, true,
          "s/screenshots/da39a3ee5e6b4b0d3255bfef95601890afd80709.png".toList,
          "s/screenshots/da39a3ee5e6b4b0d3255bfef95601890afd80709.png".toList,
          "s/diffs/da39a3ee5e6b4b0d3255bfef95601890afd80709.png".toList),
        ("/x".toList, true,
          "s/screenshots/da39a3ee5e6b4b0d3255bfef95601890afd80709.png".toList,
          "s/screenshots/a9993e364706816aba3e25717850c26c9cd0d89d.png".toList,
          "s/diffs/da39a3ee5e6b4b0d3255bfef95601890afd80709.png".toList),
        ("/broken".toList, false, [], [], [])] ∧
    (main (exampleEnv (F64.num 20)) (exampleFlagsOut "s".toList) exampleOrder exampleOrder exampleOrder
        emptyWorld).map (fun r => fileRefs r.1.Links)
      = some [("/".toList, true,
          "screenshotda39a3ee5e6b4b0d3255bfef95601890afd80709.png".toList,
          "screenshotda39a3ee5e6b4b0d3255bfef95601890afd80709.png".toList,
          "diffda39a3ee5e6b4b0d3255bfef95601890afd80709.png".toList),
        ("/x".toList, true,
          "screenshotda39a3ee5e6b4b0d3255bfef95601890afd80709.png".toList,
          "screenshota9993e364706816aba3e25717850c26c9cd0d89d.png".toList,
          "diffda39a3ee5e6b4b0d3255bfef95601890afd80709.png".toList),
        ("/broken".toList, false, [], [], [])] := by
  exact ⟨rfl, rfl, rfl, rfl⟩

/-! ## Concrete runs -/

/-- The rounding to two decimals of lines 182 and 194 of `main`, evaluated:
`y` is the float64 product with 100, `k` the integer nearest to `y` and `r`
the float64 quotient of `k` and 100. -/
theorem round_two_decimals_eval (s y r : ℚ) (k : ℤ) (hs : 0 ≤ s) (hy : 0 ≤ y)
    (hmul : F64.round64 (s * 100) = F64.num y) (hk₁ : (k : ℚ) ≤ y + 1 / 2)
    (hk₂ : y + 1 / 2 < k + 1) (hdiv : F64.round64 ((k : ℚ) / 100) = F64.num r) :
    F64.div (Round (F64.mul (F64.num s) (F64.num 100))) (F64.num 100) = F64.num r := by
  have hk : ⌊y + 1 / 2⌋ = k := Int.floor_eq_iff.2 ⟨hk₁, hk₂⟩
  rw [F64.mul_num_of_nonneg _ _ hs (by norm_num), hmul, Round_num_of_nonneg y hy, hk,
    F64.div_num_of_pos _ _ (by norm_num), hdiv]

/-- The overall similarity, evaluated: `sims` are the similarities in the
order of the visit, `S` is their float64 sum, `m` the float64 mean and `r` the
mean rounded to two decimals. -/
theorem overallSimilarity_eval (links : LinkMap) (order : List Str) (sims : List F64) (n : ℕ)
    (S m r : ℚ) (hs : (rangeValues links order).map (fun l => l.Similarity) = sims)
    (hn : links.length = n) (hn₀ : 0 < n) (hn₁ : n < 2 ^ 53)
    (hS : sims.foldl F64.add (F64.num 0) = F64.num S)
    (hm : F64.round64 (S / (n : ℚ)) = F64.num m)
    (hr : F64.div (Round (F64.mul (F64.num m) (F64.num 100))) (F64.num 100) = F64.num r) :
    overallSimilarity links order = F64.num r := by
  have hn₀' : (0 : ℚ) < n := by exact_mod_cast hn₀
  unfold overallSimilarity
  simp only
  rw [← List.foldl_map, hs, hS, hn, F64.ofNat_eq n hn₁, F64.div_num_of_pos _ _ hn₀', hm, hr]

theorem eval_sub_0 : F64.sub (F64.num 100) (F64.num 0) = F64.num 100 := by
  rw [F64.sub_num, if_pos rfl]

theorem dbl_16_5433_nearest :
    F64.round64 (165433 / 10000) = F64.num dbl_16_5433 := by
  unfold dbl_16_5433
  exact F64.round64_eq _ (4) (4656524982217395) _ (by norm_num) (by norm_num) (by norm_num)
    (by norm_num) (by norm_num [F64.roundEven]) (by norm_num)

theorem dbl_83_4567_nearest :
    F64.round64 (834567 / 10000) = F64.num dbl_83_4567 := by
  unfold dbl_83_4567
  exact F64.round64_eq _ (6) (5872743172212051) _ (by norm_num) (by norm_num) (by norm_num)
    (by norm_num) (by norm_num [F64.roundEven]) (by norm_num)

theorem dbl_83_46_nearest :
    F64.round64 (4173 / 50) = F64.num dbl_83_46 := by
  unfold dbl_83_46
  exact F64.round64_eq _ (6) (5872975389067837) _ (by norm_num) (by norm_num) (by norm_num)
    (by norm_num) (by norm_num [F64.roundEven]) (by norm_num)

theorem dbl_18_275_nearest :
    F64.round64 (731 / 40) = F64.num dbl_18_275 := by
  unfold dbl_18_275
  exact F64.round64_eq _ (4) (5143955199387238) _ (by norm_num) (by norm_num) (by norm_num)
    (by norm_num) (by norm_num [F64.roundEven]) (by norm_num)

theorem dbl_81_72_nearest :
    F64.round64 (2043 / 25) = F64.num dbl_81_72 := by
  unfold dbl_81_72
  exact F64.round64_eq _ (6) (5750533774198702) _ (by norm_num) (by norm_num) (by norm_num)
    (by norm_num) (by norm_num [F64.roundEven]) (by norm_num)

theorem dbl_81_73_nearest :
    F64.round64 (8173 / 100) = F64.num dbl_81_73 := by
  unfold dbl_81_73
  exact F64.round64_eq _ (6) (5751237461640479) _ (by norm_num) (by norm_num) (by norm_num)
    (by norm_num) (by norm_num [F64.roundEven]) (by norm_num)

theorem dbl_0_35_nearest :
    F64.round64 (7 / 20) = F64.num dbl_0_35 := by
  unfold dbl_0_35
  exact F64.round64_eq _ (-2) (6305039478318694) _ (by norm_num) (by norm_num) (by norm_num)
    (by norm_num) (by norm_num [F64.roundEven]) (by norm_num)

theorem dbl_0_355_nearest :
    F64.round64 (71 / 200) = F64.num dbl_0_355 := by
  unfold dbl_0_355
  exact F64.round64_eq _ (-2) (6395111470866104) _ (by norm_num) (by norm_num) (by norm_num)
    (by norm_num) (by norm_num [F64.roundEven]) (by norm_num)

theorem dbl_99_65_nearest :
    F64.round64 (1993 / 20) = F64.num dbl_99_65 := by
  unfold dbl_99_65
  exact F64.round64_eq _ (6) (7012245357304218) _ (by norm_num) (by norm_num) (by norm_num)
    (by norm_num) (by norm_num [F64.roundEven]) (by norm_num)

theorem dbl_99_645_nearest :
    F64.round64 (19929 / 200) = F64.num dbl_99_645 := by
  unfold dbl_99_645
  exact F64.round64_eq _ (6) (7011893513583329) _ (by norm_num) (by norm_num) (by norm_num)
    (by norm_num) (by norm_num [F64.roundEven]) (by norm_num)

theorem dbl_99_77_nearest :
    F64.round64 (9977 / 100) = F64.num dbl_99_77 := by
  unfold dbl_99_77
  exact F64.round64_eq _ (6) (7020689606605537) _ (by norm_num) (by norm_num) (by norm_num)
    (by norm_num) (by norm_num [F64.roundEven]) (by norm_num)

theorem dbl_99_76_nearest :
    F64.round64 (2494 / 25) = F64.num dbl_99_76 := by
  unfold dbl_99_76
  exact F64.round64_eq _ (6) (7019985919163761) _ (by norm_num) (by norm_num) (by norm_num)
    (by norm_num) (by norm_num [F64.roundEven]) (by norm_num)

theorem eval_sub_16 :
    F64.sub (F64.num 100) (F64.num (4656524982217395 / 281474976710656)) = F64.num (5872743172212051 / 70368744177664) := by
  rw [F64.sub_num, if_neg (by norm_num)]
  exact F64.round64_eq _ (6) (5872743172212051) _ (by norm_num) (by norm_num) (by norm_num)
    (by norm_num) (by norm_num [F64.roundEven]) (by norm_num)

theorem eval_round_16 :
    F64.div (Round (F64.mul (F64.num (5872743172212051 / 70368744177664)) (F64.num 100))) (F64.num 100) = F64.num (5872975389067837 / 70368744177664) := by
  refine round_two_decimals_eval _ (4588080603290665 / 549755813888) _ 8346 (by norm_num)
    (by norm_num) ?_ (by norm_num) (by norm_num) ?_
  ·
    exact F64.round64_eq _ (13) (4588080603290665) _ (by norm_num) (by norm_num) (by norm_num)
      (by norm_num) (by norm_num [F64.roundEven]) (by norm_num)
  ·
    exact F64.round64_eq _ (6) (5872975389067837) _ (by norm_num) (by norm_num) (by norm_num)
      (by norm_num) (by norm_num [F64.roundEven]) (by norm_num)

theorem eval_sub_18 :
    F64.sub (F64.num 100) (F64.num (2571977599693619 / 140737488355328)) = F64.num (2875442808959795 / 35184372088832) := by
  rw [F64.sub_num, if_neg (by norm_num)]
  exact F64.round64_eq _ (6) (5750885617919590) _ (by norm_num) (by norm_num) (by norm_num)
    (by norm_num) (by norm_num [F64.roundEven]) (by norm_num)

theorem eval_round_18 :
    F64.div (Round (F64.mul (F64.num (2875442808959795 / 35184372088832)) (F64.num 100))) (F64.num 100) = F64.num (2875266887099351 / 35184372088832) := by
  refine round_two_decimals_eval _ (8985758777999359 / 1099511627776) _ 8172 (by norm_num)
    (by norm_num) ?_ (by norm_num) (by norm_num) ?_
  ·
    exact F64.round64_eq _ (12) (8985758777999359) _ (by norm_num) (by norm_num) (by norm_num)
      (by norm_num) (by norm_num [F64.roundEven]) (by norm_num)
  ·
    exact F64.round64_eq _ (6) (5750533774198702) _ (by norm_num) (by norm_num) (by norm_num)
      (by norm_num) (by norm_num [F64.roundEven]) (by norm_num)

theorem eval_sub_20 :
    F64.sub (F64.num 100) (F64.num 20) = F64.num 80 := by
  rw [F64.sub_num, if_neg (by norm_num)]
  exact F64.round64_eq _ (6) (5629499534213120) _ (by norm_num) (by norm_num) (by norm_num)
    (by norm_num) (by norm_num [F64.roundEven]) (by norm_num)

theorem eval_add_w_1 :
    F64.add (F64.num 0) (F64.num 100) = F64.num 100 := by
  rw [F64.add_num]
  exact F64.round64_eq _ (6) (7036874417766400) _ (by norm_num) (by norm_num) (by norm_num)
    (by norm_num) (by norm_num [F64.roundEven]) (by norm_num)

theorem eval_add_w_2 :
    F64.add (F64.num 100) (F64.num 80) = F64.num 180 := by
  rw [F64.add_num]
  exact F64.round64_eq _ (7) (6333186975989760) _ (by norm_num) (by norm_num) (by norm_num)
    (by norm_num) (by norm_num [F64.roundEven]) (by norm_num)

theorem eval_add_w_3 :
    F64.add (F64.num 180) (F64.num 0) = F64.num 180 := by
  rw [F64.add_num]
  exact F64.round64_eq _ (7) (6333186975989760) _ (by norm_num) (by norm_num) (by norm_num)
    (by norm_num) (by norm_num [F64.roundEven]) (by norm_num)

theorem eval_div_w :
    F64.round64 (180 / ((3 : ℕ) : ℚ)) = F64.num 60 := by
  exact F64.round64_eq _ (5) (8444249301319680) _ (by norm_num) (by norm_num) (by norm_num)
    (by norm_num) (by norm_num [F64.roundEven]) (by norm_num)

theorem eval_round_w :
    F64.div (Round (F64.mul (F64.num 60) (F64.num 100))) (F64.num 100) = F64.num 60 := by
  refine round_two_decimals_eval _ 6000 _ 6000 (by norm_num)
    (by norm_num) ?_ (by norm_num) (by norm_num) ?_
  ·
    exact F64.round64_eq _ (12) (6597069766656000) _ (by norm_num) (by norm_num) (by norm_num)
      (by norm_num) (by norm_num [F64.roundEven]) (by norm_num)
  ·
    exact F64.round64_eq _ (5) (8444249301319680) _ (by norm_num) (by norm_num) (by norm_num)
      (by norm_num) (by norm_num [F64.roundEven]) (by norm_num)

theorem eval_sub_0_35 :
    F64.sub (F64.num 100) (F64.num (3152519739159347 / 9007199254740992)) = F64.num (3506122678652109 / 35184372088832) := by
  rw [F64.sub_num, if_neg (by norm_num)]
  exact F64.round64_eq _ (6) (7012245357304218) _ (by norm_num) (by norm_num) (by norm_num)
    (by norm_num) (by norm_num [F64.roundEven]) (by norm_num)

theorem eval_sub_0_355 :
    F64.sub (F64.num 100) (F64.num (799388933858263 / 2251799813685248)) = F64.num (7011893513583329 / 70368744177664) := by
  rw [F64.sub_num, if_neg (by norm_num)]
  exact F64.round64_eq _ (6) (7011893513583329) _ (by norm_num) (by norm_num) (by norm_num)
    (by norm_num) (by norm_num [F64.roundEven]) (by norm_num)

theorem eval_add_a_1 :
    F64.add (F64.num 0) (F64.num 100) = F64.num 100 := by
  rw [F64.add_num]
  exact F64.round64_eq _ (6) (7036874417766400) _ (by norm_num) (by norm_num) (by norm_num)
    (by norm_num) (by norm_num [F64.roundEven]) (by norm_num)

theorem eval_add_a_2 :
    F64.add (F64.num 100) (F64.num (3506122678652109 / 35184372088832)) = F64.num (7024559887535309 / 35184372088832) := by
  rw [F64.add_num]
  exact F64.round64_eq _ (7) (7024559887535309) _ (by norm_num) (by norm_num) (by norm_num)
    (by norm_num) (by norm_num [F64.roundEven]) (by norm_num)

theorem eval_add_a_3 :
    F64.add (F64.num (7024559887535309 / 35184372088832)) (F64.num (7011893513583329 / 70368744177664)) = F64.num (5265253322163487 / 17592186044416) := by
  rw [F64.add_num]
  exact F64.round64_eq _ (8) (5265253322163487) _ (by norm_num) (by norm_num) (by norm_num)
    (by norm_num) (by norm_num [F64.roundEven]) (by norm_num)

theorem eval_div_a :
    F64.round64 ((5265253322163487 / 17592186044416) / ((3 : ℕ) : ℚ)) = F64.num (7020337762884649 / 70368744177664) := by
  exact F64.round64_eq _ (6) (7020337762884649) _ (by norm_num) (by norm_num) (by norm_num)
    (by norm_num) (by norm_num [F64.roundEven]) (by norm_num)

theorem eval_round_a :
    F64.div (Round (F64.mul (F64.num (7020337762884649 / 70368744177664)) (F64.num 100))) (F64.num 100) = F64.num (7020689606605537 / 70368744177664) := by
  refine round_two_decimals_eval _ (19953 / 2) _ 9977 (by norm_num)
    (by norm_num) ?_ (by norm_num) (by norm_num) ?_
  ·
    exact F64.round64_eq _ (13) (5484638877253632) _ (by norm_num) (by norm_num) (by norm_num)
      (by norm_num) (by norm_num [F64.roundEven]) (by norm_num)
  ·
    exact F64.round64_eq _ (6) (7020689606605537) _ (by norm_num) (by norm_num) (by norm_num)
      (by norm_num) (by norm_num [F64.roundEven]) (by norm_num)

theorem eval_add_b_1 :
    F64.add (F64.num 0) (F64.num 100) = F64.num 100 := by
  rw [F64.add_num]
  exact F64.round64_eq _ (6) (7036874417766400) _ (by norm_num) (by norm_num) (by norm_num)
    (by norm_num) (by norm_num [F64.roundEven]) (by norm_num)

theorem eval_add_b_2 :
    F64.add (F64.num 100) (F64.num (7011893513583329 / 70368744177664)) = F64.num (439023997854679 / 2199023255552) := by
  rw [F64.add_num]
  exact F64.round64_eq _ (7) (7024383965674864) _ (by norm_num) (by norm_num) (by norm_num)
    (by norm_num) (by norm_num [F64.roundEven]) (by norm_num)

theorem eval_add_b_3 :
    F64.add (F64.num (439023997854679 / 2199023255552)) (F64.num (3506122678652109 / 35184372088832)) = F64.num (2632626661081743 / 8796093022208) := by
  rw [F64.add_num]
  exact F64.round64_eq _ (8) (5265253322163486) _ (by norm_num) (by norm_num) (by norm_num)
    (by norm_num) (by norm_num [F64.roundEven]) (by norm_num)

theorem eval_div_b :
    F64.round64 ((2632626661081743 / 8796093022208) / ((3 : ℕ) : ℚ)) = F64.num (877542220360581 / 8796093022208) := by
  exact F64.round64_eq _ (6) (7020337762884648) _ (by norm_num) (by norm_num) (by norm_num)
    (by norm_num) (by norm_num [F64.roundEven]) (by norm_num)

theorem eval_round_b :
    F64.div (Round (F64.mul (F64.num (877542220360581 / 8796093022208)) (F64.num 100))) (F64.num 100) = F64.num (7019985919163761 / 70368744177664) := by
  refine round_two_decimals_eval _ (5484638877253631 / 549755813888) _ 9976 (by norm_num)
    (by norm_num) ?_ (by norm_num) (by norm_num) ?_
  ·
    exact F64.round64_eq _ (13) (5484638877253631) _ (by norm_num) (by norm_num) (by norm_num)
      (by norm_num) (by norm_num [F64.roundEven]) (by norm_num)
  ·
    exact F64.round64_eq _ (6) (7019985919163761) _ (by norm_num) (by norm_num) (by norm_num)
      (by norm_num) (by norm_num [F64.roundEven]) (by norm_num)

section MainLemmas

variable {σ Img : Type}

theorem main_Links (env : Env σ Img) (flags : Flags) (captureOrder meanOrder cleanOrder : List Str)
    (w : World σ) (c : LinkMap × List Str × World σ)
    (h : mainCaptured env flags captureOrder w = some c) :
    (main env flags captureOrder meanOrder cleanOrder w).map (fun r => r.1.Links)
      = some (cleanLoop flags cleanOrder c.1) := by
  unfold main
  rw [h]
  rfl

theorem main_OverallSimilarity (env : Env σ Img) (flags : Flags)
    (captureOrder meanOrder cleanOrder : List Str)
    (w : World σ) (c : LinkMap × List Str × World σ)
    (h : mainCaptured env flags captureOrder w = some c) :
    (main env flags captureOrder meanOrder cleanOrder w).map (fun r => r.1.OverallSimilarity)
      = some (overallSimilarity c.1 meanOrder) := by
  unfold main
  rw [h]
  rfl

end MainLemmas

/-- The values that `range` yields for a map of three records, in the order
of the keys and in the order in which the last two keys are exchanged. -/
theorem rangeValues_three (L : LinkMap) (k₀ k₁ k₂ : Str) (c₀ c₁ c₂ : Bool) (s₀ s₁ s₂ : F64)
    (h : L.map (fun e => (e.1, e.2.Captured, e.2.Similarity))
      = [(k₀, c₀, s₀), (k₁, c₁, s₁), (k₂, c₂, s₂)])
    (h₀₁ : k₀ ≠ k₁) (h₀₂ : k₀ ≠ k₂) (h₁₂ : k₁ ≠ k₂) :
    (rangeValues L [k₀, k₁, k₂]).map (fun l => l.Similarity) = [s₀, s₁, s₂] ∧
    (rangeValues L [k₀, k₂, k₁]).map (fun l => l.Similarity) = [s₀, s₂, s₁] ∧
    L.length = 3 ∧
    L.map (fun e => e.2.Similarity.toRat) = [s₀.toRat, s₁.toRat, s₂.toRat] := by
  rcases L with _ | ⟨⟨a, la⟩, _ | ⟨⟨b, lb⟩, _ | ⟨⟨c, lc⟩, _ | ⟨d, t⟩⟩⟩⟩ <;>
    simp only [List.map_cons, List.map_nil, List.cons.injEq, Prod.mk.injEq, and_true,
      reduceCtorEq, and_false, false_and] at h
  obtain ⟨⟨rfl, -, rfl⟩, ⟨rfl, -, rfl⟩, ⟨rfl, -, rfl⟩⟩ := h
  simp [rangeValues, LinkMap.get?, h₀₁, h₀₂, h₁₂, h₀₁.symm, h₀₂.symm, h₁₂.symm]

theorem exampleCaptured_keys (percent : F64) :
    (exampleCaptured percent).keys = exampleOrder := by
  rfl

theorem exampleCaptured_similarities (percent : F64) :
    (exampleCaptured percent).map (fun e => (e.1, e.2.Captured, e.2.Similarity))
      = [("/".toList, true, F64.sub (F64.num 100) (F64.num 0)),
         ("/x".toList, true, F64.sub (F64.num 100) percent),
         ("/broken".toList, false, F64.num 0)] := by
  rfl

theorem exampleCaptured_get? (percent : F64) :
    (exampleCaptured percent).get? "/x".toList = some (exampleNewlink percent) := by
  rfl

theorem exampleNewlink_Similarity (percent : F64) :
    (exampleNewlink percent).Similarity = F64.sub (F64.num 100) percent := by
  rfl

theorem example_mainCaptured (percent : F64) :
    ∃ c, mainCaptured (exampleEnv percent) exampleFlags exampleOrder emptyWorld = some c ∧
      c.1 = exampleCaptured percent := by
  cases h : mainCaptured (exampleEnv percent) exampleFlags exampleOrder emptyWorld with
  | none =>
    have hs : (mainCaptured (exampleEnv percent) exampleFlags exampleOrder
      emptyWorld).isSome = true := rfl
    rw [h] at hs
    cases hs
  | some c =>
    refine ⟨c, rfl, ?_⟩
    unfold exampleCaptured
    rw [h]

theorem threePageCaptured_similarities (p₁ p₂ : F64) :
    (threePageCaptured p₁ p₂).map (fun e => (e.1, e.2.Captured, e.2.Similarity))
      = [("/".toList, true, F64.sub (F64.num 100) (F64.num 0)),
         ("/x".toList, true, F64.sub (F64.num 100) p₁),
         ("/y".toList, true, F64.sub (F64.num 100) p₂)] := by
  rfl

theorem threePage_mainCaptured (p₁ p₂ : F64) :
    ∃ c, mainCaptured (threePageEnv p₁ p₂) exampleFlags threePageOrder emptyWorld = some c ∧
      c.1 = threePageCaptured p₁ p₂ := by
  cases h : mainCaptured (threePageEnv p₁ p₂) exampleFlags threePageOrder emptyWorld with
  | none =>
    have hs : (mainCaptured (threePageEnv p₁ p₂) exampleFlags threePageOrder
      emptyWorld).isSome = true := rfl
    rw [h] at hs
    cases hs
  | some c =>
    refine ⟨c, rfl, ?_⟩
    unfold threePageCaptured
    rw [h]

theorem map_comp_eq_some {α β γ : Type} (o : Option α) (f : α → β) (g : β → γ) (b : β)
    (h : o.map f = some b) : o.map (fun a => g (f a)) = some (g b) := by
  cases o with
  | none => cases h
  | some a =>
    simp only [Option.map_some', Option.some.injEq] at h ⊢
    rw [h]

theorem eval_sum_w :
    [F64.num 100, F64.num 80, F64.num 0].foldl F64.add (F64.num 0) = F64.num 180 := by
  simp only [List.foldl]
  rw [eval_add_w_1, eval_add_w_2, eval_add_w_3]

theorem eval_sum_a :
    [F64.num 100, F64.num dbl_99_65, F64.num dbl_99_645].foldl F64.add (F64.num 0)
      = F64.num (5265253322163487 / 17592186044416) := by
  simp only [List.foldl, dbl_99_65, dbl_99_645]
  rw [eval_add_a_1, eval_add_a_2, eval_add_a_3]

theorem eval_sum_b :
    [F64.num 100, F64.num dbl_99_645, F64.num dbl_99_65].foldl F64.add (F64.num 0)
      = F64.num (2632626661081743 / 8796093022208) := by
  simp only [List.foldl, dbl_99_65, dbl_99_645]
  rw [eval_add_b_1, eval_add_b_2, eval_add_b_3]

/-- Witness of `overallSimilarity_float_mean`: in the concrete run the three
pages have the similarities 100, 80 and 0 (the capture of `/broken` fails),
the exact mean is 60 and the overall similarity, also the one in the result of
`main`, is 60. -/
theorem overallSimilarity_float_mean_witness :
    exampleCaptured (F64.num 20) ≠ [] ∧ (exampleCaptured (F64.num 20)).length ≤ 2 ^ 20 ∧
    (exampleCaptured (F64.num 20)).keys.Nodup ∧
    exampleOrder.Perm (exampleCaptured (F64.num 20)).keys ∧
    (exampleCaptured (F64.num 20)).map (fun e => (e.1, e.2.Captured, e.2.Similarity))
      = [("/".toList, true, F64.num 100), ("/x".toList, true, F64.num 80),
         ("/broken".toList, false, F64.num 0)] ∧
    exactMean (exampleCaptured (F64.num 20)) = 60 ∧
    overallSimilarity (exampleCaptured (F64.num 20)) exampleOrder = F64.num 60 ∧
    (main (exampleEnv (F64.num 20)) exampleFlags exampleOrder exampleOrder exampleOrder
      emptyWorld).map (fun r => r.1.OverallSimilarity) = some (F64.num 60) ∧
    |(60 : ℚ) - exactMean (exampleCaptured (F64.num 20))| ≤ 1 / 200 + 2 ^ (-26 : ℤ) := by
  have hsims : (exampleCaptured (F64.num 20)).map (fun e => (e.1, e.2.Captured, e.2.Similarity))
      = [("/".toList, true, F64.num 100), ("/x".toList, true, F64.num 80),
         ("/broken".toList, false, F64.num 0)] := by
    rw [exampleCaptured_similarities, eval_sub_0, eval_sub_20]
  obtain ⟨hrv, -, hlen3, htoRat⟩ := rangeValues_three _ _ _ _ _ _ _ _ _ _ hsims
    (by decide) (by decide) (by decide)
  have hk := exampleCaptured_keys (F64.num 20)
  have hne : exampleCaptured (F64.num 20) ≠ [] := by
    intro h
    rw [h] at hlen3
    cases hlen3
  have hlen : (exampleCaptured (F64.num 20)).length ≤ 2 ^ 20 := by
    rw [hlen3]
    norm_num
  have hnd : (exampleCaptured (F64.num 20)).keys.Nodup := by rw [hk]; decide
  have hperm : exampleOrder.Perm (exampleCaptured (F64.num 20)).keys := by rw [hk]
  have hsim : ∀ e ∈ exampleCaptured (F64.num 20),
      ∃ q : ℚ, e.2.Similarity = F64.num q ∧ 0 ≤ q ∧ q ≤ 100 := by
    intro e he
    have := List.mem_map_of_mem (fun e : Str × Link => (e.1, e.2.Captured, e.2.Similarity)) he
    rw [hsims] at this
    simp only [List.mem_cons, Prod.mk.injEq, List.not_mem_nil, or_false] at this
    rcases this with ⟨-, -, h⟩ | ⟨-, -, h⟩ | ⟨-, -, h⟩ <;>
      exact ⟨_, h, by norm_num, by norm_num⟩
  have hov : overallSimilarity (exampleCaptured (F64.num 20)) exampleOrder = F64.num 60 :=
    overallSimilarity_eval _ _ _ 3 180 60 60 hrv hlen3 (by norm_num) (by norm_num)
      eval_sum_w eval_div_w eval_round_w
  have hmean : exactMean (exampleCaptured (F64.num 20)) = 60 := by
    unfold exactMean
    rw [htoRat, hlen3]
    norm_num [F64.toRat]
  obtain ⟨-, -, -, S, y, r, k, -, -, -, -, -, -, -, -, hr, -, -, -, hre, -⟩ :=
    overallSimilarity_float_mean _ exampleOrder hne hlen hnd hperm hsim
  have h60 : r = 60 := by
    rw [hov] at hr
    exact (F64.num.inj hr).symm
  rw [h60] at hre
  obtain ⟨c, hc, hc₁⟩ := example_mainCaptured (F64.num 20)
  refine ⟨hne, hlen, hnd, hperm, hsims, hmean, hov, ?_, hre⟩
  rw [main_OverallSimilarity _ _ _ _ _ _ c hc, hc₁, hov]

/-- C1, counterexample: the beta site renders the page `/x` with a difference
of 0.35 percent and the page `/y` with a difference of 0.355 percent, so that
the three records have the similarities 100, 99.65 and 99.645 (the float64
nearest to each).  Their exact mean, rounded as round(mean * 100) / 100, is
99.77.  When `range` visits the records in the order `/`, `/x`, `/y`, the
overall similarity in the result of `main` is 99.77; when it visits them in
the order `/`, `/y`, `/x`, it is 99.76. -/
theorem overallSimilarity_depends_on_order :
    (threePageCaptured (F64.num dbl_0_35) (F64.num dbl_0_355)).map
        (fun e => (e.1, e.2.Captured, e.2.Similarity))
      = [("/".toList, true, F64.num 100), ("/x".toList, true, F64.num dbl_99_65),
         ("/y".toList, true, F64.num dbl_99_645)] ∧
    roundHalfUp (exactMean (threePageCaptured (F64.num dbl_0_35) (F64.num dbl_0_355)) * 100)
      / 100 = 9977 / 100 ∧
    F64.round64 (9977 / 100) = F64.num dbl_99_77 ∧
    (main (threePageEnv (F64.num dbl_0_35) (F64.num dbl_0_355)) exampleFlags threePageOrder
        ["/".toList, "/x".toList, "/y".toList] threePageOrder emptyWorld).map
        (fun r => r.1.OverallSimilarity) = some (F64.num dbl_99_77) ∧
    (main (threePageEnv (F64.num dbl_0_35) (F64.num dbl_0_355)) exampleFlags threePageOrder
        ["/".toList, "/y".toList, "/x".toList] threePageOrder emptyWorld).map
        (fun r => r.1.OverallSimilarity) = some (F64.num dbl_99_76) ∧
    F64.num dbl_99_76 ≠ F64.num dbl_99_77 := by
  have e₁ : F64.sub (F64.num 100) (F64.num dbl_0_35) = F64.num dbl_99_65 := eval_sub_0_35
  have e₂ : F64.sub (F64.num 100) (F64.num dbl_0_355) = F64.num dbl_99_645 := eval_sub_0_355
  have hsims : (threePageCaptured (F64.num dbl_0_35) (F64.num dbl_0_355)).map
        (fun e => (e.1, e.2.Captured, e.2.Similarity))
      = [("/".toList, true, F64.num 100), ("/x".toList, true, F64.num dbl_99_65),
         ("/y".toList, true, F64.num dbl_99_645)] := by
    rw [threePageCaptured_similarities, eval_sub_0, e₁, e₂]
  obtain ⟨hrv, hrv', hlen3, htoRat⟩ := rangeValues_three _ _ _ _ _ _ _ _ _ _ hsims
    (by decide) (by decide) (by decide)
  have hova : overallSimilarity (threePageCaptured (F64.num dbl_0_35) (F64.num dbl_0_355))
      ["/".toList, "/x".toList, "/y".toList] = F64.num dbl_99_77 :=
    overallSimilarity_eval _ _ _ 3 (5265253322163487 / 17592186044416)
      (7020337762884649 / 70368744177664) _ hrv hlen3 (by norm_num) (by norm_num)
      eval_sum_a eval_div_a eval_round_a
  have hovb : overallSimilarity (threePageCaptured (F64.num dbl_0_35) (F64.num dbl_0_355))
      ["/".toList, "/y".toList, "/x".toList] = F64.num dbl_99_76 :=
    overallSimilarity_eval _ _ _ 3 (2632626661081743 / 8796093022208)
      (877542220360581 / 8796093022208) _ hrv' hlen3 (by norm_num) (by norm_num)
      eval_sum_b eval_div_b eval_round_b
  obtain ⟨c, hc, hc₁⟩ := threePage_mainCaptured (F64.num dbl_0_35) (F64.num dbl_0_355)
  refine ⟨hsims, ?_, dbl_99_77_nearest, ?_, ?_, ?_⟩
  · unfold exactMean roundHalfUp
    rw [htoRat, hlen3]
    simp only [F64.toRat, List.sum_cons, List.sum_nil, dbl_99_65, dbl_99_645]
    have : ⌊((100 : ℚ) + (3506122678652109 / 35184372088832
        + (7011893513583329 / 70368744177664 + 0))) / ((3 : ℕ) : ℚ) * 100 + 1 / 2⌋ = 9977 :=
      Int.floor_eq_iff.2 ⟨by norm_num, by norm_num⟩
    rw [this]
    norm_num
  · rw [main_OverallSimilarity _ _ _ _ _ _ c hc, hc₁, hova]
  · rw [main_OverallSimilarity _ _ _ _ _ _ c hc, hc₁, hovb]
  · intro h
    have := F64.num.inj h
    unfold dbl_99_76 dbl_99_77 at this
    norm_num at this

/-- Witness of `reported_similarity`: in the concrete run in which the diff of
the page `/x` reports 16.5433 percent (the float64 nearest to it), the record
of `/x` has the similarity 83.4567 and the final result reports 83.46 (the
float64 nearest to each). -/
theorem reported_similarity_witness :
    ∃ r l, main (exampleEnv (F64.num dbl_16_5433)) exampleFlags exampleOrder exampleOrder
        exampleOrder emptyWorld = some r ∧
      exampleOrder.Perm r.1.Links.keys ∧
      r.1.Links.get? "/x".toList = some l ∧ l.Captured = true ∧
      (exampleCaptured (F64.num dbl_16_5433)).get? "/x".toList
        = some (exampleNewlink (F64.num dbl_16_5433)) ∧
      (exampleNewlink (F64.num dbl_16_5433)).Similarity = F64.num dbl_83_4567 ∧
      l.Similarity = F64.num dbl_83_46 := by
  have e₁ : F64.sub (F64.num 100) (F64.num dbl_16_5433) = F64.num dbl_83_4567 := eval_sub_16
  have e₂ : F64.div (Round (F64.mul (F64.num dbl_83_4567) (F64.num 100))) (F64.num 100)
      = F64.num dbl_83_46 := eval_round_16
  obtain ⟨c, hc, hc₁⟩ := example_mainCaptured (F64.num dbl_16_5433)
  have hL := main_Links (exampleEnv (F64.num dbl_16_5433)) exampleFlags exampleOrder
    exampleOrder exampleOrder emptyWorld c hc
  rw [hc₁] at hL
  cases h : main (exampleEnv (F64.num dbl_16_5433)) exampleFlags exampleOrder exampleOrder
      exampleOrder emptyWorld with
  | none =>
    rw [h] at hL
    cases hL
  | some r =>
    rw [h] at hL
    have hL' : r.1.Links
        = cleanLoop exampleFlags exampleOrder (exampleCaptured (F64.num dbl_16_5433)) :=
      Option.some.inj hL
    have hperm : exampleOrder.Perm r.1.Links.keys := by
      rw [hL', cleanLoop_keys, exampleCaptured_keys]
    have hget : r.1.Links.get? "/x".toList
        = some (cleanLink exampleFlags (exampleNewlink (F64.num dbl_16_5433))) := by
      rw [hL', cleanLoop_get? _ _ _ _ (by decide), if_pos (by decide), exampleCaptured_get?]
      rfl
    obtain ⟨links, failed, l₀, fs, diff, p, hmc, hg₀, -, -, -, hsim, -⟩ :=
      reported_similarity _ _ _ _ _ _ r.1 r.2 h hperm _ _ hget rfl
    have hlinks : links = exampleCaptured (F64.num dbl_16_5433) := by
      rw [hc] at hmc
      rw [← hc₁, Option.some.inj hmc]
    have hl₀ : l₀ = exampleNewlink (F64.num dbl_16_5433) := by
      rw [hlinks, exampleCaptured_get?] at hg₀
      exact (Option.some.inj hg₀).symm
    refine ⟨r, _, rfl, hperm, hget, rfl, exampleCaptured_get? _, ?_, ?_⟩
    · rw [exampleNewlink_Similarity, e₁]
    · rw [hsim, hl₀, exampleNewlink_Similarity, e₁, e₂]

theorem dbl_0_025_nearest :
    F64.round64 (1 / 40) = F64.num dbl_0_025 := by
  unfold dbl_0_025
  exact F64.round64_eq _ (-6) (7205759403792794) _ (by norm_num) (by norm_num) (by norm_num)
    (by norm_num) (by norm_num [F64.roundEven]) (by norm_num)

theorem dbl_99_975_nearest :
    F64.round64 (3999 / 40) = F64.num dbl_99_975 := by
  unfold dbl_99_975
  exact F64.round64_eq _ (6) (7035115199161958) _ (by norm_num) (by norm_num) (by norm_num)
    (by norm_num) (by norm_num [F64.roundEven]) (by norm_num)

theorem dbl_99_98_nearest :
    F64.round64 (4999 / 50) = F64.num dbl_99_98 := by
  unfold dbl_99_98
  exact F64.round64_eq _ (6) (7035467042882847) _ (by norm_num) (by norm_num) (by norm_num)
    (by norm_num) (by norm_num [F64.roundEven]) (by norm_num)

theorem dbl_99_97_nearest :
    F64.round64 (9997 / 100) = F64.num dbl_99_97 := by
  unfold dbl_99_97
  exact F64.round64_eq _ (6) (7034763355441070) _ (by norm_num) (by norm_num) (by norm_num)
    (by norm_num) (by norm_num [F64.roundEven]) (by norm_num)

theorem eval_sub_0_025 :
    F64.sub (F64.num 100) (F64.num (3602879701896397 / 144115188075855872)) = F64.num (3517557599580979 / 35184372088832) := by
  rw [F64.sub_num, if_neg (by norm_num)]
  exact F64.round64_eq _ (6) (7035115199161958) _ (by norm_num) (by norm_num) (by norm_num)
    (by norm_num) (by norm_num [F64.roundEven]) (by norm_num)

theorem eval_round_0_025 :
    F64.div (Round (F64.mul (F64.num (3517557599580979 / 35184372088832)) (F64.num 100))) (F64.num 100) = F64.num (7035467042882847 / 70368744177664) := by
  refine round_two_decimals_eval _ (19995 / 2) _ 9998 (by norm_num)
    (by norm_num) ?_ (by norm_num) (by norm_num) ?_
  ·
    exact F64.round64_eq _ (13) (5496183749345280) _ (by norm_num) (by norm_num) (by norm_num)
      (by norm_num) (by norm_num [F64.roundEven]) (by norm_num)
  ·
    exact F64.round64_eq _ (6) (7035467042882847) _ (by norm_num) (by norm_num) (by norm_num)
      (by norm_num) (by norm_num [F64.roundEven]) (by norm_num)

theorem example_cleaned_get? (p : F64) :
    (cleanLoop exampleFlags exampleOrder (exampleCaptured p)).get? "/x".toList
      = some (cleanLink exampleFlags (exampleNewlink p)) := by
  rw [cleanLoop_get? _ _ _ _ (by decide), if_pos (by decide), exampleCaptured_get?]
  rfl

/-- The record of the page `/x` of the concrete run after the capture loop. -/
theorem example_recorded (p : F64) :
    ((exampleCaptured p).get? "/x".toList).map (fun l => (l.Captured, l.Similarity))
      = some (true, F64.sub (F64.num 100) p) := by
  rw [exampleCaptured_get?]
  rfl

/-- The record of the page `/x` in the result of the concrete run of `main`. -/
theorem example_reported (p : F64) :
    (main (exampleEnv p) exampleFlags exampleOrder exampleOrder exampleOrder emptyWorld).map
        (fun r => (r.1.Links.get? "/x".toList).map fun l => (l.Captured, l.Similarity))
      = some (some (true, F64.div (Round (F64.mul (F64.sub (F64.num 100) p) (F64.num 100)))
          (F64.num 100))) := by
  obtain ⟨c, hc, hc₁⟩ := example_mainCaptured p
  have hL := main_Links (exampleEnv p) exampleFlags exampleOrder
    exampleOrder exampleOrder emptyWorld c hc
  rw [hc₁] at hL
  have h₄ := map_comp_eq_some _ _
    (fun L : LinkMap => (L.get? "/x".toList).map fun l => (l.Captured, l.Similarity)) _ hL
  beta_reduce at h₄
  rw [example_cleaned_get?] at h₄
  rw [h₄]
  rfl

/-- C10, counterexample.  First run: the diff of the page `/x` reports 18.275
percent (the float64 nearest to it, which is what 3655 differing pixels out of
20000 give).  The record of `/x` gets the similarity 81.725 (the float64
nearest to it), which is not the exact 100 - p; the final result of `main`
reports 81.72, while the exact (100 - p) * 100, rounded to the nearest integer
with halves rounded up and divided by 100, is 81.73, and the reported value is
farther than half a hundredth from the exact 100 - p.  Second run: the diff
reports 0.025 percent (5 differing pixels out of 20000).  The record gets the
similarity 99.975 (the float64 nearest to it, which is below 99.975); the
final result reports 99.98, while both the exact 100 - p and the similarity of
the record, rounded to the nearest hundredth with halves rounded up, are
99.97. -/
theorem reported_similarity_not_nearest :
    F64.round64 (3655 * 100 / 20000) = F64.num dbl_18_275 ∧
    ((exampleCaptured (F64.num dbl_18_275)).get? "/x".toList).map
        (fun l => (l.Captured, l.Similarity)) = some (true, F64.num dbl_81_725) ∧
    dbl_81_725 ≠ 100 - dbl_18_275 ∧
    (main (exampleEnv (F64.num dbl_18_275)) exampleFlags exampleOrder exampleOrder
        exampleOrder emptyWorld).map
        (fun r => (r.1.Links.get? "/x".toList).map fun l => (l.Captured, l.Similarity))
      = some (some (true, F64.num dbl_81_72)) ∧
    roundHalfUp ((100 - dbl_18_275) * 100) / 100 = 8173 / 100 ∧
    F64.round64 (8173 / 100) = F64.num dbl_81_73 ∧
    F64.num dbl_81_72 ≠ F64.num dbl_81_73 ∧
    1 / 200 < |dbl_81_72 - (100 - dbl_18_275)| ∧
    F64.round64 (5 * 100 / 20000) = F64.num dbl_0_025 ∧
    ((exampleCaptured (F64.num dbl_0_025)).get? "/x".toList).map
        (fun l => (l.Captured, l.Similarity)) = some (true, F64.num dbl_99_975) ∧
    (main (exampleEnv (F64.num dbl_0_025)) exampleFlags exampleOrder exampleOrder
        exampleOrder emptyWorld).map
        (fun r => (r.1.Links.get? "/x".toList).map fun l => (l.Captured, l.Similarity))
      = some (some (true, F64.num dbl_99_98)) ∧
    roundHalfUp ((100 - dbl_0_025) * 100) / 100 = 9997 / 100 ∧
    roundHalfUp (dbl_99_975 * 100) / 100 = 9997 / 100 ∧
    F64.round64 (9997 / 100) = F64.num dbl_99_97 ∧
    F64.num dbl_99_98 ≠ F64.num dbl_99_97 := by
  have e₁ : F64.sub (F64.num 100) (F64.num dbl_18_275) = F64.num dbl_81_725 := eval_sub_18
  have e₂ : F64.div (Round (F64.mul (F64.num dbl_81_725) (F64.num 100))) (F64.num 100)
      = F64.num dbl_81_72 := eval_round_18
  have e₃ : F64.sub (F64.num 100) (F64.num dbl_0_025) = F64.num dbl_99_975 := eval_sub_0_025
  have e₄ : F64.div (Round (F64.mul (F64.num dbl_99_975) (F64.num 100))) (F64.num 100)
      = F64.num dbl_99_98 := eval_round_0_025
  refine ⟨?_, ?_, ?_, ?_, ?_, dbl_81_73_nearest, ?_, ?_, ?_, ?_, ?_, ?_, ?_,
    dbl_99_97_nearest, ?_⟩
  · have e : (3655 * 100 / 20000 : ℚ) = 731 / 40 := by norm_num
    rw [e]
    exact dbl_18_275_nearest
  · rw [example_recorded, e₁]
  · unfold dbl_81_725 dbl_18_275
    norm_num
  · rw [example_reported, e₁, e₂]
  · unfold roundHalfUp dbl_18_275
    have : ⌊((100 : ℚ) - 2571977599693619 / 140737488355328) * 100 + 1 / 2⌋ = 8173 :=
      Int.floor_eq_iff.2 ⟨by norm_num, by norm_num⟩
    rw [this]
    norm_num
  · intro h
    have := F64.num.inj h
    unfold dbl_81_72 dbl_81_73 at this
    norm_num at this
  · unfold dbl_81_72 dbl_18_275
    rw [abs_of_nonpos (by norm_num)]
    norm_num
  · have e : (5 * 100 / 20000 : ℚ) = 1 / 40 := by norm_num
    rw [e]
    exact dbl_0_025_nearest
  · rw [example_recorded, e₃]
  · rw [example_reported, e₃, e₄]
  · unfold roundHalfUp dbl_0_025
    have : ⌊((100 : ℚ) - 3602879701896397 / 144115188075855872) * 100 + 1 / 2⌋ = 9997 :=
      Int.floor_eq_iff.2 ⟨by norm_num, by norm_num⟩
    rw [this]
    norm_num
  · unfold roundHalfUp dbl_99_975
    have : ⌊(3517557599580979 / 35184372088832 : ℚ) * 100 + 1 / 2⌋ = 9997 :=
      Int.floor_eq_iff.2 ⟨by norm_num, by norm_num⟩
    rw [this]
    norm_num
  · intro h
    have := F64.num.inj h
    unfold dbl_99_98 dbl_99_97 at this
    norm_num at this

end Comparinator
